import Mathlib

/-!
Verification of the Youtube-vm chat-controlled VM bot.

Shallow embedding of the Python sources:
* `src/core/vote_system.py`   (VoteSession, VoteManager)
* `src/core/rate_limiter.py`  (RateLimiter, ExecutionQueue)
* `src/core/bot.py`           (ArchChaosBot._process_message routing)
* `src/commands/parser.py`    (registry + parse_command)
* `src/commands/executor.py`  (CommandExecutor)
* `src/api/youtube_chat.py`   (message_stream dedup)

Python dicts are modelled as insertion-ordered association lists with
String keys; wall-clock times and float durations are modelled as
rationals; Python exceptions are modelled with `Except`.
-/

namespace YTVM

/-! ### Association-list dictionaries (Python dict semantics) -/

/-- Lookup: `d[k]` as an `Option` (first matching key). -/
def dget? {α : Type} (d : List (String × α)) (k : String) : Option α :=
  match d with
  | [] => none
  | (k1, v) :: rest => if k1 = k then some v else dget? rest k

/-- Lookup with a default, `d.get(k, dflt)`. -/
def dgetD {α : Type} (d : List (String × α)) (k : String) (dflt : α) : α :=
  (dget? d k).getD dflt

/-- Membership test, `k in d`. -/
def dmem {α : Type} (d : List (String × α)) (k : String) : Bool :=
  (dget? d k).isSome

/-- Update `d[k] = v`: replaces in place if the key exists (Python dicts
keep the original insertion position), otherwise appends at the end. -/
def dset {α : Type} (d : List (String × α)) (k : String) (v : α) :
    List (String × α) :=
  match d with
  | [] => [(k, v)]
  | (k1, v1) :: rest =>
    if k1 = k then (k, v) :: rest else (k1, v1) :: dset rest k v

/-- The key list of a dict. -/
def dkeys {α : Type} (d : List (String × α)) : List String :=
  d.map Prod.fst

/-- Sum of the values of an integer-valued dict. -/
def valsum (d : List (String × Int)) : Int :=
  (d.map Prod.snd).sum

theorem dget?_dset_self {α : Type} (d : List (String × α)) (k : String) (v : α) :
    dget? (dset d k v) k = some v := by
  induction d with
  | nil => simp [dset, dget?]
  | cons p rest ih =>
    obtain ⟨k1, v1⟩ := p
    by_cases h : k1 = k
    · simp [dset, dget?, h]
    · simp [dset, dget?, h, ih]

theorem dget?_dset_ne {α : Type} (d : List (String × α)) (k k2 : String) (v : α)
    (h : k2 ≠ k) : dget? (dset d k v) k2 = dget? d k2 := by
  induction d with
  | nil => simp [dset, dget?, Ne.symm h]
  | cons p rest ih =>
    obtain ⟨k1, v1⟩ := p
    by_cases hk : k1 = k
    · subst hk
      simp [dset, dget?, Ne.symm h]
    · simp [dset, dget?, hk, ih]

theorem dget?_mem {α : Type} (d : List (String × α)) (k : String) (v : α)
    (h : dget? d k = some v) : (k, v) ∈ d := by
  induction d with
  | nil => simp [dget?] at h
  | cons p rest ih =>
    obtain ⟨k1, v1⟩ := p
    by_cases hk : k1 = k
    · subst hk
      simp [dget?] at h
      simp [h]
    · simp [dget?, hk] at h
      exact List.mem_cons_of_mem _ (ih h)

theorem dmem_iff_mem_dkeys {α : Type} (d : List (String × α)) (k : String) :
    dmem d k = true ↔ k ∈ dkeys d := by
  induction d with
  | nil => simp [dmem, dget?, dkeys]
  | cons p rest ih =>
    obtain ⟨k1, v1⟩ := p
    by_cases hk : k1 = k
    · subst hk
      simp [dmem, dget?, dkeys]
    · simp [dmem, dget?, dkeys, hk, Ne.symm hk] at ih ⊢
      exact ih

theorem dkeys_dset_of_mem {α : Type} (d : List (String × α)) (k : String) (v : α)
    (h : dmem d k = true) : dkeys (dset d k v) = dkeys d := by
  induction d with
  | nil => simp [dmem, dget?] at h
  | cons p rest ih =>
    obtain ⟨k1, v1⟩ := p
    by_cases hk : k1 = k
    · simp [dset, dkeys, hk]
    · simp [dmem, dget?, hk] at h
      have hr := ih (by simp [dmem, h])
      simp only [dkeys] at hr
      simp [dset, dkeys, hk, hr]

theorem dkeys_dset_of_not_mem {α : Type} (d : List (String × α)) (k : String) (v : α)
    (h : dmem d k = false) : dkeys (dset d k v) = dkeys d ++ [k] := by
  induction d with
  | nil => simp [dset, dkeys]
  | cons p rest ih =>
    obtain ⟨k1, v1⟩ := p
    by_cases hk : k1 = k
    · simp [dmem, dget?, hk] at h
    · simp [dmem, dget?, hk] at h
      have hr := ih (by simp [dmem, h])
      simp only [dkeys] at hr
      simp [dset, dkeys, hk, hr]

theorem length_dset_of_mem {α : Type} (d : List (String × α)) (k : String) (v : α)
    (h : dmem d k = true) : (dset d k v).length = d.length := by
  have := dkeys_dset_of_mem d k v h
  have h1 : (dkeys (dset d k v)).length = (dkeys d).length := by rw [this]
  simpa [dkeys] using h1

theorem length_dset_of_not_mem {α : Type} (d : List (String × α)) (k : String) (v : α)
    (h : dmem d k = false) : (dset d k v).length = d.length + 1 := by
  have := dkeys_dset_of_not_mem d k v h
  have h1 : (dkeys (dset d k v)).length = (dkeys d).length + 1 := by
    rw [this]; simp
  simpa [dkeys] using h1

theorem valsum_dset_of_get (d : List (String × Int)) (k : String) (w v : Int)
    (h : dget? d k = some w) : valsum (dset d k v) = valsum d - w + v := by
  induction d with
  | nil => simp [dget?] at h
  | cons p rest ih =>
    obtain ⟨k1, v1⟩ := p
    by_cases hk : k1 = k
    · subst hk
      simp [dget?] at h
      subst h
      simp [dset, valsum]
      ring
    · simp [dget?, hk] at h
      simp [dset, valsum, hk] at ih ⊢
      rw [ih h]
      ring

theorem valsum_dset_of_not_mem (d : List (String × Int)) (k : String) (v : Int)
    (h : dmem d k = false) : valsum (dset d k v) = valsum d + v := by
  induction d with
  | nil => simp [dset, valsum]
  | cons p rest ih =>
    obtain ⟨k1, v1⟩ := p
    by_cases hk : k1 = k
    · simp [dmem, dget?, hk] at h
    · simp [dmem, dget?, hk] at h
      have hr := ih (by simp [dmem, h])
      simp [dset, valsum, hk] at hr ⊢
      rw [hr]
      ring

theorem dkeys_nodup_dset {α : Type} (d : List (String × α)) (k : String) (v : α)
    (h : (dkeys d).Nodup) : (dkeys (dset d k v)).Nodup := by
  by_cases hm : dmem d k
  · rw [dkeys_dset_of_mem d k v hm]; exact h
  · rw [dkeys_dset_of_not_mem d k v (by simpa using hm)]
    rw [List.nodup_append]
    refine ⟨h, List.nodup_singleton k, ?_⟩
    intro a ha hb
    simp at hb
    subst hb
    exact absurd ((dmem_iff_mem_dkeys d a).2 ha) (by simpa using hm)

theorem mem_dkeys_dset {α : Type} (d : List (String × α)) (k k2 : String) (v : α)
    (h : k2 ∈ dkeys d) : k2 ∈ dkeys (dset d k v) := by
  by_cases hm : dmem d k
  · rw [dkeys_dset_of_mem d k v hm]; exact h
  · rw [dkeys_dset_of_not_mem d k v (by simpa using hm)]
    exact List.mem_append_left _ h

theorem self_mem_dkeys_dset {α : Type} (d : List (String × α)) (k : String) (v : α) :
    k ∈ dkeys (dset d k v) := by
  have := dget?_dset_self d k v
  have hm : dmem (dset d k v) k = true := by simp [dmem, this]
  exact (dmem_iff_mem_dkeys _ _).1 hm

theorem dget?_eq_none_of_not_mem {α : Type} (d : List (String × α)) (k : String)
    (h : dmem d k = false) : dget? d k = none := by
  simp [dmem] at h
  exact Option.eq_none_of_isNone (by simpa using h)

theorem dmem_of_dget?_eq_some {α : Type} (d : List (String × α)) (k : String) (v : α)
    (h : dget? d k = some v) : dmem d k = true := by
  simp [dmem, h]

/-! ### VoteSession (`src/core/vote_system.py`, class VoteSession)

`commands : dict[str, int]` maps command name to vote count, `voters :
dict[str, str]` maps user id to the command the user voted for.  The
`started_at` wall-clock field is irrelevant to the vote bookkeeping and is
omitted; `duration` is kept.  `add_vote` subscripts `self.commands[old]`
and `self.commands[command]`, which in Python raises `KeyError` when the
key is absent; the embedding returns `none` in that case. -/

structure VoteSession where
  commands : List (String × Int)
  voters : List (String × String)
  duration : Int := 20
  active : Bool := true
deriving DecidableEq, Repr

/-- Python `str.lower()`, written so that it evaluates in the kernel
(`String.toLower` is defined by well-founded recursion and does not). -/
def pyLower (s : String) : String := ⟨s.data.map Char.toLower⟩

/-- The two lines `if command not in self.commands: self.commands[command] = 0`. -/
def ensureKey (d : List (String × Int)) (k : String) : List (String × Int) :=
  if dmem d k then d else dset d k 0

/-- `VoteSession.add_vote`: returns `some (updated session, vote was
new/changed)`, or `none` where Python would raise `KeyError`. -/
def VoteSession.add_vote (s : VoteSession) (user_id command0 : String) :
    Option (VoteSession × Bool) :=
  if !s.active then some (s, false)
  else
    let command := (pyLower command0)
    let cmds := ensureKey s.commands command
    match dget? s.voters user_id with
    | some old =>
      if old = command then some ({ s with commands := cmds }, false)
      else
        match dget? cmds old with
        | none => none
        | some vOld =>
          let cmds2 := dset cmds old (max 0 (vOld - 1))
          match dget? cmds2 command with
          | none => none
          | some vNew =>
            some ({ s with commands := dset cmds2 command (vNew + 1),
                           voters := dset s.voters user_id command }, true)
    | none =>
      match dget? cmds command with
      | none => none
      | some vNew =>
        some ({ s with commands := dset cmds command (vNew + 1),
                       voters := dset s.voters user_id command }, true)

/-- `VoteSession.total_votes`. -/
def VoteSession.total_votes (s : VoteSession) : Int :=
  valsum s.commands

/-- The session built by `VoteManager.start_vote` when the slot is free:
`VoteSession(commands={initial_command: 1}, voters={initiator_id:
initial_command}, duration=...)`. -/
def seedSession (initial_command initiator_id : String) (dur : Int) : VoteSession :=
  { commands := [(initial_command, 1)],
    voters := [(initiator_id, initial_command)],
    duration := dur,
    active := true }

/-- Sessions reachable from their creation by `start_vote` through any
sequence of `add_vote` calls (only non-raising calls can occur in a run). -/
inductive ReachableSession (c i : String) : VoteSession → Prop
  | seed (dur : Int) : ReachableSession c i (seedSession c i dur)
  | step (s s2 : VoteSession) (u cmd : String) (b : Bool) :
      ReachableSession c i s → s.add_vote u cmd = some (s2, b) →
      ReachableSession c i s2

/-- Number of voters whose current choice is `c`. -/
def holders (voters : List (String × String)) (c : String) : Nat :=
  (voters.filter (fun p => p.2 = c)).length

/-- Bookkeeping invariant of a vote session: keys are unique in both
dicts, every voter choice is a key of `commands`, and each count equals
the number of voters currently holding that command. -/
structure SessionInv (s : VoteSession) : Prop where
  voters_nodup : (s.voters.map Prod.fst).Nodup
  commands_nodup : (dkeys s.commands).Nodup
  choice_mem : ∀ p ∈ s.voters, dmem s.commands p.2 = true
  count_eq : ∀ p ∈ s.commands, p.2 = (holders s.voters p.1 : Int)
  sum_eq : valsum s.commands = (s.voters.length : Int)

theorem holders_dset_fresh (voters : List (String × String)) (u c k : String)
    (h : dget? voters u = none) :
    holders (dset voters u c) k =
      holders voters k + (if c = k then 1 else 0) := by
  induction voters with
  | nil => simp [dset, holders]; by_cases hc : c = k <;> simp [hc, List.filter]
  | cons p rest ih =>
    obtain ⟨u1, c1⟩ := p
    by_cases hu : u1 = u
    · simp [dget?, hu] at h
    · simp [dget?, hu] at h
      have hr := ih h
      by_cases hc1 : c1 = k
      · simp [dset, holders, hu, List.filter, hc1] at hr ⊢
        omega
      · simp [dset, holders, hu, List.filter, hc1] at hr ⊢
        exact hr

theorem holders_dset_replace (voters : List (String × String)) (u old c k : String)
    (h : dget? voters u = some old) :
    holders (dset voters u c) k + (if old = k then 1 else 0) =
      holders voters k + (if c = k then 1 else 0) := by
  induction voters with
  | nil => simp [dget?] at h
  | cons p rest ih =>
    obtain ⟨u1, c1⟩ := p
    by_cases hu : u1 = u
    · simp [dget?, hu] at h
      subst h
      by_cases hc1 : c1 = k <;> by_cases hc : c = k <;>
        simp [dset, holders, hu, List.filter, hc1, hc]
    · simp [dget?, hu] at h
      have hr := ih h
      by_cases hc1 : c1 = k
      · simp [dset, holders, hu, List.filter, hc1] at hr ⊢
        omega
      · simp [dset, holders, hu, List.filter, hc1] at hr ⊢
        exact hr

theorem holders_pos_of_mem (voters : List (String × String)) (u old : String)
    (h : dget? voters u = some old) : 1 ≤ holders voters old := by
  have hm : (u, old) ∈ voters := dget?_mem voters u old h
  have : (u, old) ∈ voters.filter (fun p => p.2 = old) := by
    simp [List.mem_filter, hm]
  have hne : voters.filter (fun p => p.2 = old) ≠ [] := by
    intro hnil
    rw [hnil] at this
    simp at this
  have := List.length_pos.2 hne
  simpa [holders] using this

theorem holders_eq_zero_of_not_key (s : VoteSession) (hInv : SessionInv s)
    (c : String) (h : dmem s.commands c = false) :
    holders s.voters c = 0 := by
  by_contra hne
  have hpos : 0 < holders s.voters c := Nat.pos_of_ne_zero hne
  have hne2 : s.voters.filter (fun p => p.2 = c) ≠ [] := by
    intro hnil
    simp [holders, hnil] at hpos
  obtain ⟨p, hp⟩ := List.exists_mem_of_ne_nil _ hne2
  have hp2 := List.mem_filter.1 hp
  have hchoice := hInv.choice_mem p hp2.1
  have : p.2 = c := by simpa using hp2.2
  rw [this] at hchoice
  rw [hchoice] at h
  simp at h

theorem mem_dset {α : Type} (d : List (String × α)) (k : String) (v : α)
    (p : String × α) (h : p ∈ dset d k v) : p ∈ d ∨ p = (k, v) := by
  induction d with
  | nil => simp [dset] at h; simp [h]
  | cons q rest ih =>
    obtain ⟨k1, v1⟩ := q
    by_cases hk : k1 = k
    · simp [dset, hk] at h
      rcases h with h | h
      · right; simp [h]
      · left; exact List.mem_cons_of_mem _ h
    · simp [dset, hk] at h
      rcases h with h | h
      · left; simp [h]
      · rcases ih h with h2 | h2
        · left; exact List.mem_cons_of_mem _ h2
        · right; exact h2

theorem dget?_of_mem_nodup {α : Type} (d : List (String × α)) (p : String × α)
    (hnd : (dkeys d).Nodup) (h : p ∈ d) : dget? d p.1 = some p.2 := by
  induction d with
  | nil => simp at h
  | cons q rest ih =>
    obtain ⟨k1, v1⟩ := q
    rw [dkeys, List.map_cons, List.nodup_cons] at hnd
    rcases List.mem_cons.1 h with h1 | h1
    · subst h1
      simp [dget?]
    · have hne : k1 ≠ p.1 := by
        intro hEq
        exact hnd.1 (by simpa [hEq.symm] using (List.mem_map_of_mem Prod.fst h1))
      simp [dget?, hne]
      exact ih hnd.2 h1

theorem count_eq_get (s : VoteSession) (hInv : SessionInv s) (k : String) (w : Int)
    (h : dget? s.commands k = some w) : w = (holders s.voters k : Int) :=
  hInv.count_eq (k, w) (dget?_mem _ _ _ h)

theorem ensureKey_of_mem (d : List (String × Int)) (c : String)
    (hm : dmem d c = true) : ensureKey d c = d := by
  unfold ensureKey
  rw [if_pos hm]

theorem ensureKey_of_not_mem (d : List (String × Int)) (c : String)
    (hm : dmem d c = false) : ensureKey d c = dset d c 0 := by
  unfold ensureKey
  rw [if_neg (by simp [hm])]

theorem ensureKey_facts (s : VoteSession) (hInv : SessionInv s) (c : String) :
    dget? (ensureKey s.commands c) c = some (dgetD s.commands c 0) ∧
    (∀ k, k ≠ c → dget? (ensureKey s.commands c) k = dget? s.commands k) ∧
    valsum (ensureKey s.commands c) = valsum s.commands ∧
    (dkeys (ensureKey s.commands c)).Nodup ∧
    (∀ k, k ∈ dkeys s.commands → k ∈ dkeys (ensureKey s.commands c)) ∧
    (∀ p ∈ ensureKey s.commands c, p.2 = (holders s.voters p.1 : Int)) ∧
    c ∈ dkeys (ensureKey s.commands c) := by
  by_cases hm : dmem s.commands c
  · rw [ensureKey_of_mem s.commands c hm]
    refine ⟨?_, fun k _ => rfl, rfl, hInv.commands_nodup, fun k hk => hk,
      hInv.count_eq, (dmem_iff_mem_dkeys _ _).1 hm⟩
    simp only [dmem] at hm
    obtain ⟨w, hw⟩ := Option.isSome_iff_exists.1 hm
    simp [hw, dgetD]
  · have hm2 : dmem s.commands c = false := by simpa using hm
    rw [ensureKey_of_not_mem s.commands c hm2]
    have hz : dgetD s.commands c 0 = 0 := by
      simp [dgetD, dget?_eq_none_of_not_mem s.commands c hm2]
    refine ⟨?_, ?_, ?_, ?_, ?_, ?_, self_mem_dkeys_dset _ _ _⟩
    · rw [hz]; exact dget?_dset_self _ _ _
    · intro k hk; exact dget?_dset_ne _ _ _ _ hk
    · rw [valsum_dset_of_not_mem _ _ _ hm2]; ring
    · exact dkeys_nodup_dset _ _ _ hInv.commands_nodup
    · intro k hk; exact mem_dkeys_dset _ _ _ _ hk
    · intro p hp
      rcases mem_dset _ _ _ _ hp with h1 | h1
      · exact hInv.count_eq p h1
      · subst h1
        simp [holders_eq_zero_of_not_key s hInv c hm2]

theorem dgetD_of_dget? {α : Type} (d : List (String × α)) (k : String) (v dflt : α)
    (h : dget? d k = some v) : dgetD d k dflt = v := by
  simp [dgetD, h]

/-- Re-casting the identical (lowercased) choice is a no-op returning the
session unchanged. -/
theorem add_vote_same (s : VoteSession) (u cmd0 old : String)
    (hInv : SessionInv s) (hAct : s.active = true)
    (hold : dget? s.voters u = some old) (heq : (pyLower cmd0) = old) :
    s.add_vote u cmd0 = some (s, false) := by
  have hm : dmem s.commands old = true :=
    hInv.choice_mem (u, old) (dget?_mem _ _ _ hold)
  unfold VoteSession.add_vote
  rw [hAct]
  simp only [Bool.not_true, Bool.false_eq_true, if_false, heq,
    ensureKey_of_mem s.commands old hm, hold]
  simp
  rw [← hAct]

/-- A first-time voter adds one vote for the (lowercased) cast command,
preserving the invariant. -/
theorem add_vote_fresh (s : VoteSession) (u cmd0 : String)
    (hInv : SessionInv s) (hAct : s.active = true)
    (hnone : dget? s.voters u = none) :
    ∃ s2, s.add_vote u cmd0 = some (s2, true) ∧ SessionInv s2 ∧
      s2.active = true ∧
      dgetD s2.commands (pyLower cmd0) 0 = dgetD s.commands (pyLower cmd0) 0 + 1 ∧
      (∀ k, k ≠ (pyLower cmd0) → dgetD s2.commands k 0 = dgetD s.commands k 0) ∧
      s2.voters.length = s.voters.length + 1 ∧
      valsum s2.commands = valsum s.commands + 1 := by
  set c := (pyLower cmd0) with hc
  obtain ⟨hE1, hE2, hE3, hE4, hE5, hE6, hE7⟩ := ensureKey_facts s hInv c
  set cmds := ensureKey s.commands c with hcmds
  set w := dgetD s.commands c 0 with hw
  have hwh : w = (holders s.voters c : Int) := hE6 (c, w) (dget?_mem _ _ _ hE1)
  have humem : dmem s.voters u = false := by simp [dmem, hnone]
  refine ⟨{ s with commands := dset cmds c (w + 1), voters := dset s.voters u c },
    ?_, ?_, hAct, ?_, ?_, ?_, ?_⟩
  · unfold VoteSession.add_vote
    rw [hAct]
    simp only [Bool.not_true, Bool.false_eq_true, if_false, hnone, ← hc, ← hcmds, hE1]
  · constructor
    · exact dkeys_nodup_dset s.voters u c hInv.voters_nodup
    · exact dkeys_nodup_dset cmds c (w + 1) hE4
    · intro p hp
      rcases mem_dset _ _ _ _ hp with h1 | h1
      · have h2 := hInv.choice_mem p h1
        have h3 : p.2 ∈ dkeys cmds := hE5 p.2 ((dmem_iff_mem_dkeys _ _).1 h2)
        exact (dmem_iff_mem_dkeys _ _).2 (mem_dkeys_dset cmds c p.2 (w + 1) h3)
      · rw [h1]
        exact (dmem_iff_mem_dkeys _ _).2 (self_mem_dkeys_dset cmds c (w + 1))
    · intro p hp
      have hpget : dget? (dset cmds c (w + 1)) p.1 = some p.2 :=
        dget?_of_mem_nodup _ p (dkeys_nodup_dset cmds c (w + 1) hE4) hp
      by_cases hpc : p.1 = c
      · rw [hpc, dget?_dset_self] at hpget
        have hp2 : p.2 = w + 1 := (Option.some.inj hpget).symm
        rw [hp2, hpc, holders_dset_fresh s.voters u c c hnone]
        simp [hwh]
      · rw [dget?_dset_ne cmds c p.1 (w + 1) hpc] at hpget
        have hmem2 : (p.1, p.2) ∈ cmds := dget?_mem _ _ _ hpget
        have hval : p.2 = (holders s.voters p.1 : Int) := hE6 (p.1, p.2) hmem2
        have hcp : ¬c = p.1 := fun h => hpc (Eq.symm h)
        rw [hval, holders_dset_fresh s.voters u c p.1 hnone]
        simp [hcp]
    · show valsum (dset cmds c (w + 1)) = ((dset s.voters u c).length : Int)
      rw [valsum_dset_of_get cmds c w (w + 1) hE1, hE3,
        length_dset_of_not_mem s.voters u c humem, hInv.sum_eq]
      push_cast
      ring
  · exact dgetD_of_dget? _ _ _ _ (by rw [dget?_dset_self])
  · intro k hk
    have h1 : dget? (dset cmds c (w + 1)) k = dget? s.commands k := by
      rw [dget?_dset_ne cmds c k (w + 1) hk, hE2 k hk]
    simp [dgetD, h1]
  · exact length_dset_of_not_mem s.voters u c humem
  · rw [valsum_dset_of_get cmds c w (w + 1) hE1, hE3]
    ring

/-- A voter switching to a different (lowercased) choice moves exactly one
vote from the old choice to the new one, preserving the invariant. -/
theorem add_vote_move (s : VoteSession) (u cmd0 old : String)
    (hInv : SessionInv s) (hAct : s.active = true)
    (hold : dget? s.voters u = some old) (hne : (pyLower cmd0) ≠ old) :
    ∃ s2, s.add_vote u cmd0 = some (s2, true) ∧ SessionInv s2 ∧
      s2.active = true ∧
      dgetD s2.commands old 0 = dgetD s.commands old 0 - 1 ∧
      dgetD s2.commands (pyLower cmd0) 0 = dgetD s.commands (pyLower cmd0) 0 + 1 ∧
      (∀ k, k ≠ old → k ≠ (pyLower cmd0) →
        dgetD s2.commands k 0 = dgetD s.commands k 0) ∧
      s2.voters.length = s.voters.length ∧
      valsum s2.commands = valsum s.commands := by
  set c := (pyLower cmd0) with hc
  obtain ⟨hE1, hE2, hE3, hE4, hE5, hE6, hE7⟩ := ensureKey_facts s hInv c
  set cmds := ensureKey s.commands c with hcmds
  set w := dgetD s.commands c 0 with hw
  have hwh : w = (holders s.voters c : Int) := hE6 (c, w) (dget?_mem _ _ _ hE1)
  have humem : dmem s.voters u = true := by simp [dmem, hold]
  have holdmem : dmem s.commands old = true :=
    hInv.choice_mem (u, old) (dget?_mem _ _ _ hold)
  have hOldGet : dget? cmds old = dget? s.commands old := hE2 old (Ne.symm hne)
  obtain ⟨wOld, hwOld⟩ := Option.isSome_iff_exists.1 (by simpa [dmem] using holdmem)
  have hwOldC : dget? cmds old = some wOld := by rw [hOldGet, hwOld]
  have hwOldH : wOld = (holders s.voters old : Int) := count_eq_get s hInv old wOld hwOld
  have hpos : 1 ≤ holders s.voters old := holders_pos_of_mem s.voters u old hold
  have hposI : 1 ≤ wOld := by rw [hwOldH]; exact_mod_cast hpos
  have hmax : max 0 (wOld - 1) = wOld - 1 := by omega
  set cmds2 := dset cmds old (wOld - 1) with hcmds2
  have hC2c : dget? cmds2 c = some w := by
    rw [hcmds2, dget?_dset_ne cmds old c (wOld - 1) hne, hE1]
  have hC2nodup : (dkeys cmds2).Nodup := dkeys_nodup_dset cmds old (wOld - 1) hE4
  have hKeys2 : ∀ k, k ∈ dkeys cmds → k ∈ dkeys cmds2 := fun k hk =>
    mem_dkeys_dset cmds old k (wOld - 1) hk
  refine ⟨{ s with commands := dset cmds2 c (w + 1), voters := dset s.voters u c },
    ?_, ?_, hAct, ?_, ?_, ?_, ?_, ?_⟩
  · unfold VoteSession.add_vote
    rw [hAct]
    simp only [Bool.not_true, Bool.false_eq_true, if_false, hold, ← hc, ← hcmds,
      Ne.symm hne, if_false, hwOldC, hmax, ← hcmds2, hC2c]
  · constructor
    · exact dkeys_nodup_dset s.voters u c hInv.voters_nodup
    · exact dkeys_nodup_dset cmds2 c (w + 1) hC2nodup
    · intro p hp
      rcases mem_dset _ _ _ _ hp with h1 | h1
      · have h2 := hInv.choice_mem p h1
        have h3 : p.2 ∈ dkeys cmds := hE5 p.2 ((dmem_iff_mem_dkeys _ _).1 h2)
        exact (dmem_iff_mem_dkeys _ _).2
          (mem_dkeys_dset cmds2 c p.2 (w + 1) (hKeys2 p.2 h3))
      · rw [h1]
        exact (dmem_iff_mem_dkeys _ _).2 (self_mem_dkeys_dset cmds2 c (w + 1))
    · intro p hp
      show p.2 = (holders (dset s.voters u c) p.1 : Int)
      have hpget : dget? (dset cmds2 c (w + 1)) p.1 = some p.2 :=
        dget?_of_mem_nodup _ p (dkeys_nodup_dset cmds2 c (w + 1) hC2nodup) hp
      have hrepl := holders_dset_replace s.voters u old c p.1 hold
      by_cases hpc : p.1 = c
      · rw [hpc, dget?_dset_self] at hpget
        have hp2 : p.2 = w + 1 := (Option.some.inj hpget).symm
        rw [hpc] at hrepl
        have hoc : ¬old = c := fun h => hne (Eq.symm h)
        simp [hoc] at hrepl
        rw [hp2, hpc, hrepl, hwh]
        push_cast
        ring
      · rw [dget?_dset_ne cmds2 c p.1 (w + 1) hpc] at hpget
        by_cases hpold : p.1 = old
        · rw [hpold, hcmds2, dget?_dset_self] at hpget
          have hp2 : p.2 = wOld - 1 := (Option.some.inj hpget).symm
          rw [hpold] at hrepl
          simp at hrepl
          have hcold : ¬c = old := hne
          simp [hcold] at hrepl
          rw [hp2, hpold, hwOldH]
          omega
        · rw [hcmds2, dget?_dset_ne cmds old p.1 (wOld - 1) hpold] at hpget
          have hval := hE6 (p.1, p.2) (dget?_mem _ _ _ hpget)
          have hop : ¬old = p.1 := fun h => hpold (Eq.symm h)
          have hcp : ¬c = p.1 := fun h => hpc (Eq.symm h)
          simp [hop, hcp] at hrepl
          rw [hval, hrepl]
    · show valsum (dset cmds2 c (w + 1)) = ((dset s.voters u c).length : Int)
      rw [valsum_dset_of_get cmds2 c w (w + 1) hC2c, hcmds2,
        valsum_dset_of_get cmds old wOld (wOld - 1) hwOldC, hE3,
        length_dset_of_mem s.voters u c humem, hInv.sum_eq]
      ring
  · have h1 : dget? (dset cmds2 c (w + 1)) old = some (wOld - 1) := by
      rw [dget?_dset_ne cmds2 c old (w + 1) (fun h => hne (Eq.symm h)), hcmds2,
        dget?_dset_self]
    rw [dgetD_of_dget? _ _ _ _ h1, dgetD_of_dget? _ _ _ _ hwOld]
  · have h1 : dget? (dset cmds2 c (w + 1)) c = some (w + 1) := dget?_dset_self _ _ _
    rw [dgetD_of_dget? _ _ _ _ h1]
  · intro k hkold hkc
    have h1 : dget? (dset cmds2 c (w + 1)) k = dget? s.commands k := by
      rw [dget?_dset_ne cmds2 c k (w + 1) hkc, hcmds2,
        dget?_dset_ne cmds old k (wOld - 1) hkold, hE2 k hkc]
    simp [dgetD, h1]
  · exact length_dset_of_mem s.voters u c humem
  · rw [valsum_dset_of_get cmds2 c w (w + 1) hC2c, hcmds2,
      valsum_dset_of_get cmds old wOld (wOld - 1) hwOldC, hE3]
    ring

theorem add_vote_inactive (s : VoteSession) (u cmd0 : String)
    (hAct : s.active = false) : s.add_vote u cmd0 = some (s, false) := by
  unfold VoteSession.add_vote
  rw [hAct]
  simp

/-- Every successful `add_vote` call preserves the session invariant. -/
theorem add_vote_preserves_inv (s s2 : VoteSession) (u cmd0 : String) (b : Bool)
    (hInv : SessionInv s) (h : s.add_vote u cmd0 = some (s2, b)) :
    SessionInv s2 := by
  by_cases hAct : s.active = true
  · rcases hv : dget? s.voters u with _ | old
    · obtain ⟨s3, h3, hInv3, _⟩ := add_vote_fresh s u cmd0 hInv hAct hv
      rw [h3] at h
      simp only [Option.some.injEq, Prod.mk.injEq] at h
      rw [← h.1]
      exact hInv3
    · by_cases heq : (pyLower cmd0) = old
      · have h3 := add_vote_same s u cmd0 old hInv hAct hv heq
        rw [h3] at h
        simp only [Option.some.injEq, Prod.mk.injEq] at h
        rw [← h.1]
        exact hInv
      · obtain ⟨s3, h3, hInv3, _⟩ := add_vote_move s u cmd0 old hInv hAct hv heq
        rw [h3] at h
        simp only [Option.some.injEq, Prod.mk.injEq] at h
        rw [← h.1]
        exact hInv3
  · have hActF : s.active = false := by simpa using hAct
    rw [add_vote_inactive s u cmd0 hActF] at h
    simp only [Option.some.injEq, Prod.mk.injEq] at h
    rw [← h.1]
    exact hInv

/-- The seeded session satisfies the invariant. -/
theorem seed_inv (c i : String) (dur : Int) : SessionInv (seedSession c i dur) := by
  constructor
  · simp [seedSession]
  · simp [seedSession, dkeys]
  · intro p hp
    simp [seedSession] at hp
    simp [seedSession, hp, dmem, dget?]
  · intro p hp
    simp [seedSession] at hp
    simp [seedSession, hp, holders, List.filter]
  · simp [seedSession, valsum]

theorem reachable_inv (c i : String) (s : VoteSession)
    (h : ReachableSession c i s) : SessionInv s := by
  induction h with
  | seed dur => exact seed_inv c i dur
  | step s s2 u cmd b hr hstep ih => exact add_vote_preserves_inv s s2 u cmd b ih hstep

/-- C2. For every VoteSession reachable from its creation (seeded with one
vote for the initiating command by the initiating voter) by any sequence
of add_vote calls, the sum of all per-command vote counts equals the
number of distinct voter entries, and no count is ever negative. -/
theorem C2_vote_sum_invariant (c i : String) (s : VoteSession)
    (h : ReachableSession c i s) :
    valsum s.commands = (s.voters.length : Int) ∧ ∀ p ∈ s.commands, 0 ≤ p.2 := by
  have hInv := reachable_inv c i s h
  refine ⟨hInv.sum_eq, ?_⟩
  intro p hp
  rw [hInv.count_eq p hp]
  positivity

/-- Witness for C2 at a concrete two-step reachable session. -/
theorem C2_vote_sum_invariant_witness :
    valsum ({ commands := [("shutdown", 1), ("forceshutdown", 1)],
              voters := [("alice", "shutdown"), ("bob", "forceshutdown")],
              duration := 20, active := true } : VoteSession).commands =
      (({ commands := [("shutdown", 1), ("forceshutdown", 1)],
          voters := [("alice", "shutdown"), ("bob", "forceshutdown")],
          duration := 20, active := true } : VoteSession).voters.length : Int) ∧
    ∀ p ∈ ({ commands := [("shutdown", 1), ("forceshutdown", 1)],
             voters := [("alice", "shutdown"), ("bob", "forceshutdown")],
             duration := 20, active := true } : VoteSession).commands, 0 ≤ p.2 :=
  C2_vote_sum_invariant "shutdown" "alice" _
    (ReachableSession.step _ _ "bob" "forceshutdown" true
      (ReachableSession.seed 20) (by decide))

/-- C3. For an active session satisfying the bookkeeping invariant:
re-casting the identical held choice is a no-op; casting a different
choice decrements the old count by one, increments the new count by one,
leaves all other counts and the total unchanged, and no count goes
negative. -/
theorem C3_add_vote_cases (s : VoteSession) (u cmd0 old : String)
    (hInv : SessionInv s) (hAct : s.active = true)
    (hold : dget? s.voters u = some old) :
    ((pyLower cmd0) = old → s.add_vote u cmd0 = some (s, false)) ∧
    ((pyLower cmd0) ≠ old → ∃ s2, s.add_vote u cmd0 = some (s2, true) ∧
      dgetD s2.commands old 0 = dgetD s.commands old 0 - 1 ∧
      dgetD s2.commands (pyLower cmd0) 0 = dgetD s.commands (pyLower cmd0) 0 + 1 ∧
      (∀ k, k ≠ old → k ≠ (pyLower cmd0) →
        dgetD s2.commands k 0 = dgetD s.commands k 0) ∧
      valsum s2.commands = valsum s.commands ∧
      (∀ p ∈ s2.commands, 0 ≤ p.2)) := by
  constructor
  · intro heq
    exact add_vote_same s u cmd0 old hInv hAct hold heq
  · intro hne
    obtain ⟨s2, h1, hInv2, _, h4, h5, h6, _, h8⟩ :=
      add_vote_move s u cmd0 old hInv hAct hold hne
    refine ⟨s2, h1, h4, h5, h6, h8, ?_⟩
    intro p hp
    rw [hInv2.count_eq p hp]
    positivity

/-- Witness for C3 at the concrete seeded session. -/
theorem C3_add_vote_cases_witness :
    ((pyLower "forceshutdown") = "shutdown" →
      (seedSession "shutdown" "alice" 20).add_vote "alice" "forceshutdown" =
        some (seedSession "shutdown" "alice" 20, false)) ∧
    ((pyLower "forceshutdown") ≠ "shutdown" → ∃ s2,
      (seedSession "shutdown" "alice" 20).add_vote "alice" "forceshutdown" =
        some (s2, true) ∧
      dgetD s2.commands "shutdown" 0 =
        dgetD (seedSession "shutdown" "alice" 20).commands "shutdown" 0 - 1 ∧
      dgetD s2.commands (pyLower "forceshutdown") 0 =
        dgetD (seedSession "shutdown" "alice" 20).commands
          (pyLower "forceshutdown") 0 + 1 ∧
      (∀ k, k ≠ "shutdown" → k ≠ (pyLower "forceshutdown") →
        dgetD s2.commands k 0 =
          dgetD (seedSession "shutdown" "alice" 20).commands k 0) ∧
      valsum s2.commands = valsum (seedSession "shutdown" "alice" 20).commands ∧
      (∀ p ∈ s2.commands, 0 ≤ p.2)) :=
  C3_add_vote_cases (seedSession "shutdown" "alice" 20) "alice" "forceshutdown"
    "shutdown" (seed_inv "shutdown" "alice" 20) rfl (by decide)

/-! ### VoteManager concurrency (`src/core/vote_system.py`, class VoteManager)

The asyncio control flow of `start_vote` and `_run_vote` is modelled as a
labelled transition system whose atomic steps are exactly the
lock-protected sections and single awaits of the code:

* `startNew` and `joinExisting`: the body of `start_vote` runs entirely
  under `self._session_lock` with no await inside, hence atomic.  It
  creates a new session exactly when the guard
  `self._current_session and self._current_session.active` is falsy,
  otherwise it folds the vote into the existing session.
* `timerFire`: in `_run_vote`, after `await asyncio.sleep(duration)`, the
  locked section sets `session.active = False` and computes the winner and
  counts.  Note `_current_session` is not cleared.
* `dispatchOne`: one `await cb(winner, counts, voter_ids)` for one of the
  `n` registered result callbacks, executed outside the lock.
* `finishTask`: the `_run_vote` coroutine returns after all `n` callbacks.

Each spawned `_run_vote` coroutine is tracked as a `(session id, phase)`
entry; session ids are allocated from a counter so distinct sessions are
distinguishable. -/

structure ManagerSession where
  sid : Nat
  active : Bool
deriving DecidableEq, Repr

inductive TaskPhase
  | sleeping
  | dispatching (done : Nat)
  | finished
deriving DecidableEq, Repr

structure ManagerState where
  current : Option ManagerSession
  tasks : List (Nat × TaskPhase)
  nextSid : Nat
deriving DecidableEq, Repr

/-- Update the phase of the task for session `sid`. -/
def setTask (ts : List (Nat × TaskPhase)) (sid : Nat) (ph : TaskPhase) :
    List (Nat × TaskPhase) :=
  ts.map (fun p => if p.1 = sid then (sid, ph) else p)

/-- `session.active = False` mutates the session object; it affects the
slot only if `_current_session` still points at that object. -/
def markInactive (cur : Option ManagerSession) (sid : Nat) :
    Option ManagerSession :=
  match cur with
  | none => none
  | some s => if s.sid = sid then some { s with active := false } else some s

/-- The slot-check of `start_vote`: a fresh session is created iff
`self._current_session and self._current_session.active` is falsy. -/
def slotFree (cur : Option ManagerSession) : Bool :=
  match cur with
  | none => true
  | some s => !s.active

def initState : ManagerState := { current := none, tasks := [], nextSid := 0 }

/-- Event labels for the vote-manager transition system. -/
inductive MEventT
  | startNew
  | joinExisting
  | timerFire (sid : Nat)
  | dispatchOne (sid : Nat)
  | finishTask (sid : Nat)
deriving DecidableEq, Repr

/-- One atomic step of the vote manager, with `n` registered result
callbacks. -/
inductive MStep (n : Nat) : MEventT → ManagerState → ManagerState → Prop
  | startNew (st : ManagerState) (h : slotFree st.current = true) :
      MStep n MEventT.startNew st
        { current := some ⟨st.nextSid, true⟩,
          tasks := st.tasks ++ [(st.nextSid, TaskPhase.sleeping)],
          nextSid := st.nextSid + 1 }
  | joinExisting (st : ManagerState) (s : ManagerSession)
      (h1 : st.current = some s) (h2 : s.active = true) :
      MStep n MEventT.joinExisting st st
  | timerFire (st : ManagerState) (sid : Nat)
      (h : (sid, TaskPhase.sleeping) ∈ st.tasks) :
      MStep n (MEventT.timerFire sid) st
        { st with current := markInactive st.current sid,
                  tasks := setTask st.tasks sid (TaskPhase.dispatching 0) }
  | dispatchOne (st : ManagerState) (sid k : Nat)
      (h : (sid, TaskPhase.dispatching k) ∈ st.tasks) (hk : k < n) :
      MStep n (MEventT.dispatchOne sid) st
        { st with tasks := setTask st.tasks sid (TaskPhase.dispatching (k + 1)) }
  | finishTask (st : ManagerState) (sid : Nat)
      (h : (sid, TaskPhase.dispatching n) ∈ st.tasks) :
      MStep n (MEventT.finishTask sid) st
        { st with tasks := setTask st.tasks sid TaskPhase.finished }

inductive MReachable (n : Nat) : ManagerState → Prop
  | init : MReachable n initState
  | step (e : MEventT) (st st2 : ManagerState) :
      MReachable n st → MStep n e st st2 → MReachable n st2

/-- Some fired session still has result callbacks left to dispatch. -/
def dispatchIncomplete (n : Nat) (st : ManagerState) : Prop :=
  ∃ sid k, (sid, TaskPhase.dispatching k) ∈ st.tasks ∧ k < n

theorem mem_setTask (ts : List (Nat × TaskPhase)) (sid : Nat) (ph ph0 : TaskPhase)
    (h0 : (sid, ph0) ∈ ts) : (sid, ph) ∈ setTask ts sid ph := by
  unfold setTask
  have := List.mem_map_of_mem (fun p => if p.1 = sid then (sid, ph) else p) h0
  simpa using this

/-- C1 counterexample trace: with one registered callback, after the
timer-fire step of session 0 (dispatch not yet performed), `start_vote`
can already create session 1. -/
theorem C1_counterexample :
    MReachable 1 ⟨some ⟨0, false⟩, [(0, TaskPhase.dispatching 0)], 1⟩ ∧
    dispatchIncomplete 1 ⟨some ⟨0, false⟩, [(0, TaskPhase.dispatching 0)], 1⟩ ∧
    MStep 1 MEventT.startNew ⟨some ⟨0, false⟩, [(0, TaskPhase.dispatching 0)], 1⟩
      ⟨some ⟨1, true⟩, [(0, TaskPhase.dispatching 0), (1, TaskPhase.sleeping)], 2⟩ := by
  refine ⟨?_, ⟨0, 0, by simp, by omega⟩, ?_⟩
  · refine MReachable.step (MEventT.timerFire 0) _ _
      (MReachable.step MEventT.startNew _ _ MReachable.init
        (MStep.startNew initState rfl)) ?_
    exact MStep.timerFire ⟨some ⟨0, true⟩, [(0, TaskPhase.sleeping)], 1⟩ 0 (by simp)
  · exact MStep.startNew _ rfl

/-- C1 amended: the session slot becomes available as soon as the timer
fires and marks the session inactive, before any result callback has been
dispatched; a `start_vote` call arriving then already creates a new
session while the previous session's dispatch is still incomplete. -/
theorem C1_amended_slot_after_timer (n : Nat) (st st2 : ManagerState) (sid : Nat)
    (hstep : MStep n (MEventT.timerFire sid) st st2)
    (hcur : st.current = some ⟨sid, true⟩) (hn : 0 < n) :
    dispatchIncomplete n st2 ∧ ∃ st3, MStep n MEventT.startNew st2 st3 := by
  cases hstep with
  | timerFire _ _ h =>
    constructor
    · exact ⟨sid, 0, mem_setTask st.tasks sid (TaskPhase.dispatching 0)
        TaskPhase.sleeping h, hn⟩
    · refine ⟨_, MStep.startNew _ ?_⟩
      show slotFree (markInactive st.current sid) = true
      rw [hcur]
      simp [markInactive, slotFree]

/-- Witness for the amended C1 at the concrete counterexample trace. -/
theorem C1_amended_slot_after_timer_witness :
    dispatchIncomplete 1 ⟨some ⟨0, false⟩, [(0, TaskPhase.dispatching 0)], 1⟩ ∧
    ∃ st3, MStep 1 MEventT.startNew
      ⟨some ⟨0, false⟩, [(0, TaskPhase.dispatching 0)], 1⟩ st3 :=
  C1_amended_slot_after_timer 1 ⟨some ⟨0, true⟩, [(0, TaskPhase.sleeping)], 1⟩
    ⟨some ⟨0, false⟩, [(0, TaskPhase.dispatching 0)], 1⟩ 0
    (MStep.timerFire ⟨some ⟨0, true⟩, [(0, TaskPhase.sleeping)], 1⟩ 0
      (by simp)) rfl (by omega)

/-! ### RateLimiter (`src/core/rate_limiter.py`, class RateLimiter)

Wall-clock times and cooldown durations (Python floats) are modelled by an
arbitrary linear ordered commutative ring `τ` (the code only subtracts,
adds and compares them; `ℚ` models the float values, `ℤ` is used for
executable witnesses); `time.time()` is passed in as the `now` argument.
The denial reason f-strings are modelled by a constructor carrying the
computed wait amount.  `self._user_last` is a `defaultdict(float)`, so
even a plain read `self._user_last[user_id]` inserts the key with value
`0.0` when absent — the embedding of `check` therefore returns a
possibly-updated state.  Python defaults: `user_cooldown=3.0`,
`global_cooldown=0.5`. -/

structure RateLimiter (τ : Type) where
  user_cooldown : τ
  global_cooldown : τ
  user_last : List (String × τ)
  global_last : τ
  command_cooldowns : List (String × τ)
  command_intervals : List (String × τ)
deriving DecidableEq, Repr

/-- `RateLimiter.__init__`. -/
def RateLimiter.init {τ : Type} [LinearOrderedCommRing τ]
    (user_cooldown global_cooldown : τ) : RateLimiter τ :=
  { user_cooldown := user_cooldown, global_cooldown := global_cooldown,
    user_last := [], global_last := 0,
    command_cooldowns := [], command_intervals := [] }

/-- `RateLimiter.set_command_cooldown`. -/
def RateLimiter.set_command_cooldown {τ : Type} (rl : RateLimiter τ)
    (command : String) (interval : τ) : RateLimiter τ :=
  { rl with command_intervals := dset rl.command_intervals command interval }

/-- The reason strings returned by `check` when denying, with the
formatted wait amount carried as data. -/
inductive DenyReason (τ : Type)
  | allowed
  | serverBusy (wait : τ)
  | userCooldown (wait : τ)
  | commandCooldown (command : String) (wait : τ)
deriving DecidableEq, Repr

/-- `RateLimiter.check`: returns the possibly-updated state (see the
defaultdict note above) and the `(allowed, reason)` pair. -/
def RateLimiter.check {τ : Type} [LinearOrderedCommRing τ] (rl : RateLimiter τ)
    (now : τ) (user_id : String) (command : String) :
    RateLimiter τ × Bool × DenyReason τ :=
  let elapsed_global := now - rl.global_last
  if elapsed_global < rl.global_cooldown then
    (rl, false, DenyReason.serverBusy (rl.global_cooldown - elapsed_global))
  else
    let rl2 := if dmem rl.user_last user_id then rl
               else { rl with user_last := dset rl.user_last user_id 0 }
    let elapsed_user := now - dgetD rl2.user_last user_id 0
    if elapsed_user < rl2.user_cooldown then
      (rl2, false, DenyReason.userCooldown (rl2.user_cooldown - elapsed_user))
    else
      if command ≠ "" ∧ dmem rl2.command_intervals command then
        let elapsed_cmd := now - dgetD rl2.command_cooldowns command 0
        let interval := dgetD rl2.command_intervals command 0
        if elapsed_cmd < interval then
          (rl2, false, DenyReason.commandCooldown command (interval - elapsed_cmd))
        else (rl2, true, DenyReason.allowed)
      else (rl2, true, DenyReason.allowed)

/-- `RateLimiter.record`. -/
def RateLimiter.record {τ : Type} (rl : RateLimiter τ) (now : τ)
    (user_id : String) (command : String) : RateLimiter τ :=
  { rl with
    user_last := dset rl.user_last user_id now,
    global_last := now,
    command_cooldowns := if command ≠ "" then dset rl.command_cooldowns command now
                         else rl.command_cooldowns }

theorem check_fst {τ : Type} [LinearOrderedCommRing τ] (rl : RateLimiter τ)
    (now : τ) (u c : String) :
    (rl.check now u c).1 = rl ∨
    (dmem rl.user_last u = false ∧
      (rl.check now u c).1 = { rl with user_last := dset rl.user_last u 0 }) := by
  by_cases h1 : now - rl.global_last < rl.global_cooldown
  · left
    simp [RateLimiter.check, h1]
  · by_cases h2 : dmem rl.user_last u
    · left
      simp only [RateLimiter.check, h1, if_false, h2, if_true]
      split_ifs <;> rfl
    · right
      have h2f : dmem rl.user_last u = false := by simpa using h2
      refine ⟨h2f, ?_⟩
      simp only [RateLimiter.check, h1, if_false, h2f, Bool.false_eq_true, if_false]
      split_ifs <;> rfl

/-- C4 counterexample: on a fresh limiter, a mere `check` call inserts the
missing user key into the per-user timestamp table (the `defaultdict`
read `self._user_last[user_id]`), so the limiter state, and in particular
the key set of the per-user table, is not identical before and after. -/
theorem C4_counterexample :
    ((RateLimiter.init (τ := Int) 3 1).check 100 "u" "").1 ≠
      RateLimiter.init (τ := Int) 3 1 ∧
    ((RateLimiter.init (τ := Int) 3 1).check 100 "u" "").1.user_last = [("u", 0)] ∧
    (RateLimiter.init (τ := Int) 3 1).user_last = [] := by
  refine ⟨?_, by decide, by decide⟩
  intro h
  have h2 : ((RateLimiter.init (τ := Int) 3 1).check 100 "u" "").1.user_last =
      (RateLimiter.init (τ := Int) 3 1).user_last := by rw [h]
  revert h2
  decide

/-- C4 amended: `check` never changes the cooldown parameters, the global
timestamp, the per-command tables, or the value associated to any user key
(reading absent keys through the `defaultdict` default 0); its only
mutation is possibly inserting a missing entry `(user_id, 0)` into the
per-user table. -/
theorem C4_check_frame {τ : Type} [LinearOrderedCommRing τ] (rl : RateLimiter τ)
    (now : τ) (u c : String) :
    (rl.check now u c).1.user_cooldown = rl.user_cooldown ∧
    (rl.check now u c).1.global_cooldown = rl.global_cooldown ∧
    (rl.check now u c).1.global_last = rl.global_last ∧
    (rl.check now u c).1.command_cooldowns = rl.command_cooldowns ∧
    (rl.check now u c).1.command_intervals = rl.command_intervals ∧
    (∀ k, dgetD (rl.check now u c).1.user_last k 0 = dgetD rl.user_last k 0) ∧
    ((rl.check now u c).1.user_last = rl.user_last ∨
      (dmem rl.user_last u = false ∧
        (rl.check now u c).1.user_last = dset rl.user_last u 0)) := by
  rcases check_fst rl now u c with h | ⟨hm, h⟩
  · rw [h]
    exact ⟨rfl, rfl, rfl, rfl, rfl, fun k => rfl, Or.inl rfl⟩
  · rw [h]
    refine ⟨rfl, rfl, rfl, rfl, rfl, ?_, Or.inr ⟨hm, rfl⟩⟩
    intro k
    by_cases hk : k = u
    · subst hk
      simp [dgetD, dget?_dset_self, dget?_eq_none_of_not_mem rl.user_last k hm]
    · simp [dgetD, dget?_dset_ne rl.user_last u k 0 hk]

theorem check_global_denied {τ : Type} [LinearOrderedCommRing τ]
    (rl : RateLimiter τ) (now : τ) (u c : String)
    (h : now - rl.global_last < rl.global_cooldown) :
    rl.check now u c =
      (rl, false, DenyReason.serverBusy (rl.global_cooldown - (now - rl.global_last))) := by
  unfold RateLimiter.check
  rw [if_pos h]

/-- C5 counterexample: with global cooldown G = 10, two `record` calls at
t = 100 and t = 105 (so Δ = 5 < G), a check performed after the second
record at t = 105 is denied with remaining wait G = 10, not G − Δ = 5. -/
theorem C5_counterexample :
    ((((RateLimiter.init (τ := Int) 3 10).record 100 "u" "").record 105 "u" "").check
        105 "u" "").2 = (false, DenyReason.serverBusy 10) ∧
    (10 : Int) ≠ 10 - 5 := by
  exact ⟨by decide, by decide⟩

/-- C5 amended: after a `record` at `t1`, a `check` at `t1 + Δ` with
`0 ≤ Δ < G` sees the first record only and is denied with remaining wait
exactly `G − Δ`; a `check` sequenced after the second `record` at
`t1 + Δ` is denied with remaining wait `G` (the global timestamp was just
refreshed to the check's own time). -/
theorem C5_amended_global_cooldown {τ : Type} [LinearOrderedCommRing τ]
    (rl : RateLimiter τ) (t1 delta : τ) (u1 u2 u3 c1 c2 c3 : String)
    (h0 : 0 ≤ delta) (h1 : delta < rl.global_cooldown) :
    ((rl.record t1 u1 c1).check (t1 + delta) u2 c2).2 =
      (false, DenyReason.serverBusy (rl.global_cooldown - delta)) ∧
    (((rl.record t1 u1 c1).record (t1 + delta) u3 c3).check (t1 + delta) u2 c2).2 =
      (false, DenyReason.serverBusy rl.global_cooldown) := by
  constructor
  · have hG : (rl.record t1 u1 c1).global_cooldown = rl.global_cooldown := rfl
    have hL : (rl.record t1 u1 c1).global_last = t1 := rfl
    have hlt : (t1 + delta) - (rl.record t1 u1 c1).global_last <
        (rl.record t1 u1 c1).global_cooldown := by
      rw [hG, hL]
      simpa using h1
    rw [check_global_denied _ _ _ _ hlt, hG, hL]
    have : rl.global_cooldown - (t1 + delta - t1) = rl.global_cooldown - delta := by
      ring
    rw [this]
  · have hG : ((rl.record t1 u1 c1).record (t1 + delta) u3 c3).global_cooldown =
        rl.global_cooldown := rfl
    have hL : ((rl.record t1 u1 c1).record (t1 + delta) u3 c3).global_last =
        t1 + delta := rfl
    have hpos : (0 : τ) < rl.global_cooldown := lt_of_le_of_lt h0 h1
    have hlt : (t1 + delta) - ((rl.record t1 u1 c1).record (t1 + delta) u3 c3).global_last <
        ((rl.record t1 u1 c1).record (t1 + delta) u3 c3).global_cooldown := by
      rw [hG, hL]
      simpa using hpos
    rw [check_global_denied _ _ _ _ hlt, hG, hL]
    have : rl.global_cooldown - (t1 + delta - (t1 + delta)) = rl.global_cooldown := by
      ring
    rw [this]

/-- Witness for the amended C5 at concrete integer times. -/
theorem C5_amended_global_cooldown_witness :
    (((RateLimiter.init (τ := Int) 3 10).record 100 "u" "").check 105 "u" "").2 =
      (false, DenyReason.serverBusy (10 - 5)) ∧
    ((((RateLimiter.init (τ := Int) 3 10).record 100 "u" "").record 105 "u" "").check
        105 "u" "").2 = (false, DenyReason.serverBusy 10) := by
  have h := C5_amended_global_cooldown (RateLimiter.init (τ := Int) 3 10) 100 5
    "u" "u" "u" "" "" "" (by decide) (by decide)
  simpa using h

/-! ### ExecutionQueue (`src/core/rate_limiter.py`, class ExecutionQueue)

Wraps `asyncio.Queue(maxsize=max_size)`.  `put` uses `put_nowait`, which
raises `QueueFull` exactly when `maxsize > 0` and the queue already holds
`maxsize` items (`maxsize = 0` means unbounded in asyncio); the exception
handler increments `dropped` and returns `False`.  `get` pops the oldest
item (FIFO); an empty queue would block, modelled as `none`. -/

structure ExecutionQueue (α : Type) where
  max_size : Nat
  items : List α
  dropped : Nat
deriving DecidableEq, Repr

/-- `ExecutionQueue.__init__` (Python default `max_size=50`). -/
def ExecutionQueue.init (α : Type) (max_size : Nat) : ExecutionQueue α :=
  { max_size := max_size, items := [], dropped := 0 }

/-- `ExecutionQueue.put`. -/
def ExecutionQueue.put {α : Type} (q : ExecutionQueue α) (item : α) :
    ExecutionQueue α × Bool :=
  if q.max_size = 0 ∨ q.items.length < q.max_size then
    ({ q with items := q.items ++ [item] }, true)
  else
    ({ q with dropped := q.dropped + 1 }, false)

/-- `ExecutionQueue.get` (`none` models blocking on an empty queue). -/
def ExecutionQueue.get? {α : Type} (q : ExecutionQueue α) :
    Option (α × ExecutionQueue α) :=
  match q.items with
  | [] => none
  | x :: rest => some (x, { q with items := rest })

/-- Successive `put` calls, collecting each call's Boolean result. -/
def putAll {α : Type} (q : ExecutionQueue α) (xs : List α) :
    ExecutionQueue α × List Bool :=
  match xs with
  | [] => (q, [])
  | x :: rest =>
    let r1 := q.put x
    let r2 := putAll r1.1 rest
    (r2.1, r1.2 :: r2.2)

/-- `n` successive `get` calls, collecting the dequeued items. -/
def dequeueN {α : Type} (q : ExecutionQueue α) : Nat → List α
  | 0 => []
  | n + 1 =>
    match q.get? with
    | none => []
    | some (x, q2) => x :: dequeueN q2 n

theorem dequeueN_items {α : Type} (l : List α) (q : ExecutionQueue α)
    (h : q.items = l) : dequeueN q l.length = l := by
  induction l generalizing q with
  | nil => simp [dequeueN]
  | cons x rest ih =>
    have hget : q.get? = some (x, { q with items := rest }) := by
      unfold ExecutionQueue.get?
      rw [h]
    simp only [List.length_cons, dequeueN, hget]
    rw [ih { q with items := rest } rfl]

theorem putAll_fits {α : Type} (xs : List α) (q : ExecutionQueue α)
    (h : q.items.length + xs.length ≤ q.max_size) :
    putAll q xs = ({ q with items := q.items ++ xs },
      List.replicate xs.length true) := by
  induction xs generalizing q with
  | nil => simp [putAll]
  | cons x rest ih =>
    have hlt : q.items.length < q.max_size := by
      simp only [List.length_cons] at h
      omega
    have hput : q.put x = ({ q with items := q.items ++ [x] }, true) := by
      unfold ExecutionQueue.put
      rw [if_pos (Or.inr hlt)]
    simp only [putAll, hput]
    have h2 : ({ q with items := q.items ++ [x] } :
        ExecutionQueue α).items.length + rest.length ≤
        ({ q with items := q.items ++ [x] } : ExecutionQueue α).max_size := by
      simp only [List.length_append, List.length_singleton]
      simp only [List.length_cons] at h
      omega
    rw [ih { q with items := q.items ++ [x] } h2]
    simp [List.replicate_succ]

theorem putAll_append {α : Type} (q : ExecutionQueue α) (as bs : List α) :
    putAll q (as ++ bs) =
      ((putAll (putAll q as).1 bs).1,
        (putAll q as).2 ++ (putAll (putAll q as).1 bs).2) := by
  induction as generalizing q with
  | nil => simp [putAll]
  | cons a rest ih =>
    simp only [List.cons_append, putAll]
    simp only [List.append_eq]
    rw [ih]

theorem put_full {α : Type} (q : ExecutionQueue α) (x : α)
    (h1 : q.items.length = q.max_size) (h2 : 0 < q.max_size) :
    q.put x = ({ q with dropped := q.dropped + 1 }, false) := by
  unfold ExecutionQueue.put
  rw [if_neg (by omega)]

/-- C7. For a fresh ExecutionQueue of capacity C (bounded, i.e. C > 0,
since `asyncio.Queue(maxsize=0)` is unbounded), enqueuing C+1 items yields
success for the first C put calls and failure exactly on the (C+1)th,
moves the dropped counter from 0 to exactly 1, and the C accepted items
are dequeued in their original submission order. -/
theorem C7_queue_capacity {α : Type} (C : Nat) (hC : 0 < C) (xs : List α)
    (hlen : xs.length = C + 1) :
    (putAll (ExecutionQueue.init α C) xs).2 = List.replicate C true ++ [false] ∧
    (putAll (ExecutionQueue.init α C) xs).1.dropped = 1 ∧
    (putAll (ExecutionQueue.init α C) xs).1.items = xs.take C ∧
    dequeueN (putAll (ExecutionQueue.init α C) xs).1 C = xs.take C := by
  have hyl : (xs.take C).length = C := by
    rw [List.length_take]
    omega
  have hzl : (xs.drop C).length = 1 := by
    rw [List.length_drop, hlen]
    omega
  obtain ⟨z, hz⟩ := List.length_eq_one.1 hzl
  have hx2 : xs = xs.take C ++ [z] := by
    rw [← hz]
    exact (List.take_append_drop C xs).symm
  have hfit : (ExecutionQueue.init α C).items.length + (xs.take C).length ≤
      (ExecutionQueue.init α C).max_size := by
    simp [ExecutionQueue.init, hyl]
  have h1 : putAll (ExecutionQueue.init α C) (xs.take C) =
      ({ ExecutionQueue.init α C with items := xs.take C },
        List.replicate C true) := by
    rw [putAll_fits (xs.take C) _ hfit]
    simp [ExecutionQueue.init, hyl]
  have hq1 : ({ ExecutionQueue.init α C with items := xs.take C } :
      ExecutionQueue α) = ⟨C, xs.take C, 0⟩ := rfl
  have h2 : (⟨C, xs.take C, 0⟩ : ExecutionQueue α).put z =
      (⟨C, xs.take C, 1⟩, false) := by
    rw [put_full ⟨C, xs.take C, 0⟩ z (by simpa using hyl) hC]
  have hchain : putAll (ExecutionQueue.init α C) xs =
      (⟨C, xs.take C, 1⟩, List.replicate C true ++ [false]) := by
    conv_lhs => rw [hx2]
    rw [putAll_append, h1, hq1]
    simp only [putAll, h2]
  rw [hchain]
  refine ⟨rfl, rfl, rfl, ?_⟩
  have := dequeueN_items (xs.take C) ⟨C, xs.take C, 1⟩ rfl
  rwa [hyl] at this

/-- Witness for C7 with capacity 2 and three items. -/
theorem C7_queue_capacity_witness :
    (putAll (ExecutionQueue.init Nat 2) [10, 20, 30]).2 =
      List.replicate 2 true ++ [false] ∧
    (putAll (ExecutionQueue.init Nat 2) [10, 20, 30]).1.dropped = 1 ∧
    (putAll (ExecutionQueue.init Nat 2) [10, 20, 30]).1.items =
      [10, 20, 30].take 2 ∧
    dequeueN (putAll (ExecutionQueue.init Nat 2) [10, 20, 30]).1 2 =
      [10, 20, 30].take 2 :=
  C7_queue_capacity 2 (by decide) [10, 20, 30] rfl

/-! ### Executable Python string helpers

Kernel-executable counterparts of the Python string methods used by the
parser (the corresponding `String` library functions use well-founded
recursion and do not reduce in the kernel). -/

/-- Python `str.strip()` (whitespace on both ends). -/
def pyTrim (s : String) : String :=
  ⟨((s.data.dropWhile Char.isWhitespace).reverse.dropWhile
      Char.isWhitespace).reverse⟩

/-- Python `str.startswith(pre)`. -/
def pyStartsWith (s pre : String) : Bool :=
  pre.data.isPrefixOf s.data

/-- Python `s[n:]`. -/
def pyDropLeft (s : String) (n : Nat) : String :=
  ⟨s.data.drop n⟩

/-- Python `s[:n]`. -/
def pyTake (s : String) (n : Nat) : String :=
  ⟨s.data.take n⟩

/-- Split a character list at every character satisfying `p`, keeping
empty chunks. -/
def splitChars (p : Char → Bool) : List Char → List (List Char)
  | [] => [[]]
  | c :: rest =>
    let r := splitChars p rest
    if p c then [] :: r
    else
      match r with
      | [] => [[c]]
      | w :: ws => (c :: w) :: ws

/-- Python `str.split()` with no argument: split on whitespace runs,
discarding empty tokens. -/
def pySplitWs (s : String) : List String :=
  ((splitChars (fun c => c.isWhitespace) s.data).filter
    (fun l => !l.isEmpty)).map (fun l => ⟨l⟩)

/-- Python `str.split(sep)` for a one-character separator: keeps empty
chunks. -/
def pySplitOnChar (s : String) (sep : Char) : List String :=
  (splitChars (fun c => c == sep) s.data).map (fun l => ⟨l⟩)

/-- Python `" ".join(xs)`. -/
def pyJoinSpace (xs : List String) : String :=
  ⟨List.intercalate [' '] (xs.map String.data)⟩

/-- Python `str.lstrip("-")`. -/
def pyLstripDash (s : String) : String :=
  ⟨s.data.dropWhile (fun c => c == '-')⟩

/-! ### Command registry and parser (`src/commands/parser.py`)

`shlex.split` agrees with whitespace splitting on text free of quotes and
backslashes, and the code falls back to `text.split()` when quoting is
malformed; tokenization is modelled by whitespace splitting. -/

inductive CommandTier
  | classic
  | major
  | admin
deriving DecidableEq, Repr

inductive Permission
  | viewer
  | member
  | mod
  | admin
deriving DecidableEq, Repr

/-- The enum values `VIEWER = 0 ... ADMIN = 3`. -/
def Permission.value : Permission → Nat
  | Permission.viewer => 0
  | Permission.member => 1
  | Permission.mod => 2
  | Permission.admin => 3

structure CommandDef where
  name : String
  tier : CommandTier
  min_args : Nat := 0
  max_args : Nat := 0
  description : String := ""
  required_permission : Permission := Permission.viewer
  aliases : List String := []
deriving DecidableEq, Repr

structure ParsedCommand where
  name : String
  args : List String
  raw : String
  tier : CommandTier := CommandTier.classic
  required_permission : Permission := Permission.viewer
deriving DecidableEq, Repr

/-- `COMMAND_DEFS` from `src/commands/parser.py`. -/
def COMMAND_DEFS : List CommandDef := [
  { name := "startvm", tier := CommandTier.admin, min_args := 0, max_args := 0,
    description := "Start the VM", required_permission := Permission.admin },
  { name := "fullscreen", tier := CommandTier.classic, min_args := 0, max_args := 0,
    description := "Toggle fullscreen" },
  { name := "move", tier := CommandTier.classic, min_args := 1, max_args := 3,
    description := "!move dx dy | !move left/right/up/down [steps]" },
  { name := "abs", tier := CommandTier.classic, min_args := 2, max_args := 2,
    description := "!abs x y - Move mouse to absolute position" },
  { name := "drag", tier := CommandTier.classic, min_args := 2, max_args := 3,
    description := "!drag dx dy [button]" },
  { name := "click", tier := CommandTier.classic, min_args := 0, max_args := 1,
    description := "!click [button] - left/right/middle" },
  { name := "rclick", tier := CommandTier.classic, min_args := 0, max_args := 0,
    description := "Right click" },
  { name := "scroll", tier := CommandTier.classic, min_args := 1, max_args := 1,
    description := "!scroll delta" },
  { name := "type", tier := CommandTier.classic, min_args := 1, max_args := 99,
    description := "!type text" },
  { name := "send", tier := CommandTier.classic, min_args := 1, max_args := 99,
    description := "!send text (type + Enter)" },
  { name := "key", tier := CommandTier.classic, min_args := 1, max_args := 2,
    description := "!key keyname [duration]" },
  { name := "combo", tier := CommandTier.classic, min_args := 1, max_args := 1,
    description := "!combo ctrl+c" },
  { name := "keydown", tier := CommandTier.classic, min_args := 1, max_args := 1,
    description := "!keydown key" },
  { name := "keyup", tier := CommandTier.classic, min_args := 1, max_args := 1,
    description := "!keyup key" },
  { name := "enter", tier := CommandTier.classic, min_args := 0, max_args := 0,
    description := "Press Enter" },
  { name := "wait", tier := CommandTier.classic, min_args := 1, max_args := 1,
    description := "!wait seconds (max 10)" },
  { name := "stats", tier := CommandTier.classic, min_args := 0, max_args := 0,
    description := "Your stats" },
  { name := "leaderboard", tier := CommandTier.classic, min_args := 0, max_args := 0,
    description := "Top players" },
  { name := "uptime", tier := CommandTier.classic, min_args := 0, max_args := 0,
    description := "Stream uptime" },
  { name := "help", tier := CommandTier.classic, min_args := 0, max_args := 1,
    description := "List commands" },
  { name := "vote", tier := CommandTier.classic, min_args := 1, max_args := 1,
    description := "!vote command - cast vote" },
  { name := "shutdown", tier := CommandTier.major, min_args := 0, max_args := 0,
    description := "Graceful ACPI shutdown (vote)" },
  { name := "forceshutdown", tier := CommandTier.major, min_args := 0, max_args := 0,
    description := "Hard power off + restart (vote)" },
  { name := "reset", tier := CommandTier.admin, min_args := 0, max_args := 0,
    description := "Restart VM", required_permission := Permission.admin },
  { name := "revert", tier := CommandTier.admin, min_args := 0, max_args := 0,
    description := "Restore snapshot", required_permission := Permission.admin },
  { name := "screenshot", tier := CommandTier.admin, min_args := 0, max_args := 0,
    description := "Take screenshot", required_permission := Permission.mod },
  { name := "ban", tier := CommandTier.admin, min_args := 1, max_args := 1,
    description := "Ban user from commands", required_permission := Permission.mod },
  { name := "unban", tier := CommandTier.admin, min_args := 1, max_args := 1,
    description := "Unban user", required_permission := Permission.mod }]

/-- `_CMD_MAP`: name and aliases to definition (no entry declares
aliases, but the loop is modelled faithfully). -/
def cmdMap : List (String × CommandDef) :=
  COMMAND_DEFS.foldl
    (fun m c => c.aliases.foldl (fun m2 a => dset m2 a c) (dset m c.name c)) []

/-- `parse_command`. -/
def parse_command (text0 : String) : Option ParsedCommand :=
  let text := pyTrim text0
  if !(pyStartsWith text "!") then none
  else
    match pySplitWs (pyDropLeft text 1) with
    | [] => none
    | name0 :: args0 =>
      let name := pyLower name0
      match dget? cmdMap name with
      | none => none
      | some cdef =>
        let args := if (name = "type" ∨ name = "send") ∧ args0 ≠ [] then
                      [pyJoinSpace args0]
                    else args0
        if args.length < cdef.min_args then none
        else some { name := name, args := args, raw := text,
                    tier := cdef.tier,
                    required_permission := cdef.required_permission }

/-! ### Message routing (`src/core/bot.py`, ArchChaosBot._process_message)

The routing decision taken for one inbound chat message: which path of
`_process_message` handles it.  Side effects along each path (overlay
updates, user-db bookkeeping, `rate_limiter.record`) are not needed by the
claims and are not part of the outcome value. -/

structure ChatMessage where
  message_id : String
  author_id : String
  author_name : String
  author_display : String
  text : String
  is_moderator : Bool := false
  is_owner : Bool := false
  is_member : Bool := false
deriving DecidableEq, Repr

/-- Permission resolution block of `_process_message`. -/
def resolvePermission (adminIds modIds : List String) (m : ChatMessage) :
    Permission :=
  if m.author_id ∈ adminIds ∨ m.is_owner then Permission.admin
  else if m.author_id ∈ modIds ∨ m.is_moderator then Permission.mod
  else if m.is_member then Permission.member
  else Permission.viewer

inductive RouteOutcome
  | notCommand
  | bannedUser
  | noPermission
  | helpText
  | statsText
  | leaderboardText
  | uptimeText
  | voteCastHandled
  | moderationHandled
  | rateLimitedSilent
  | rateLimitedNotice
  | majorVote
  | enqueued (cmd : ParsedCommand)
  | queueFullNotice (cmd : ParsedCommand)
deriving DecidableEq, Repr

/-- The part of `_process_message` that runs once the command is parsed
and the permission resolved (bot.py lines 147-201). -/
def routeParsed {τ : Type} [LinearOrderedCommRing τ] (rl : RateLimiter τ)
    (now : τ) (queueHasRoom : Bool) (m : ChatMessage) (perm : Permission)
    (cmd : ParsedCommand) : RouteOutcome :=
  if cmd.required_permission.value > perm.value then RouteOutcome.noPermission
  else if cmd.name = "help" then RouteOutcome.helpText
  else if cmd.name = "stats" then RouteOutcome.statsText
  else if cmd.name = "leaderboard" then RouteOutcome.leaderboardText
  else if cmd.name = "uptime" then RouteOutcome.uptimeText
  else if cmd.name = "vote" then RouteOutcome.voteCastHandled
  else if cmd.name = "ban" ∨ cmd.name = "unban" then RouteOutcome.moderationHandled
  else
    let r := rl.check now m.author_id cmd.name
    if r.2.1 = false then
      if cmd.tier = CommandTier.classic ∧
          cmd.name ∈ ["move", "click", "rclick", "type", "send", "key",
            "enter", "scroll", "abs", "drag"] then
        RouteOutcome.rateLimitedSilent
      else RouteOutcome.rateLimitedNotice
    else if cmd.tier = CommandTier.major then RouteOutcome.majorVote
    else if queueHasRoom then RouteOutcome.enqueued cmd
    else RouteOutcome.queueFullNotice cmd

/-- `_process_message` routing end to end. -/
def processMessage {τ : Type} [LinearOrderedCommRing τ]
    (adminIds modIds banned : List String) (rl : RateLimiter τ) (now : τ)
    (queueHasRoom : Bool) (m : ChatMessage) : RouteOutcome :=
  let text := pyTrim m.text
  if !(pyStartsWith text "!") then RouteOutcome.notCommand
  else if m.author_id ∈ banned then RouteOutcome.bannedUser
  else
    let perm := resolvePermission adminIds modIds m
    match parse_command text with
    | none => RouteOutcome.notCommand
    | some cmd => routeParsed rl now queueHasRoom m perm cmd

/-- C6 counterexample: an admin user's `!startvm` (Admin tier, permitted,
rate-allowed, queue has room) is routed to the ExecutionQueue, not
executed immediately; the claim that Admin-tier system commands are never
enqueued is false. -/
theorem C6_counterexample :
    processMessage (τ := Int) ["adminA"] [] [] (RateLimiter.init 3 1) 100 true
      { message_id := "m1", author_id := "adminA", author_name := "a",
        author_display := "AdminA", text := "!startvm" } =
      RouteOutcome.enqueued
        { name := "startvm", args := [], raw := "!startvm",
          tier := CommandTier.admin,
          required_permission := Permission.admin } := by
  decide

/-- C6 amended: Admin-tier VM commands (startvm, reset) take the same
path as Classic commands: once permitted and rate-admitted they are
enqueued into the ExecutionQueue and executed by its single consumer
(startvm being exempted there from the VM-running gate), not executed
immediately. -/
theorem C6_amended_admin_vm_enqueued {τ : Type} [LinearOrderedCommRing τ]
    (rl : RateLimiter τ) (now : τ) (m : ChatMessage) (perm : Permission)
    (cmd : ParsedCommand)
    (hname : cmd.name = "startvm" ∨ cmd.name = "reset")
    (htier : cmd.tier = CommandTier.admin)
    (hperm : cmd.required_permission.value ≤ perm.value)
    (hallowed : (rl.check now m.author_id cmd.name).2.1 = true) :
    routeParsed rl now true m perm cmd = RouteOutcome.enqueued cmd := by
  have hp2 : ¬(cmd.required_permission.value > perm.value) := by omega
  rcases hname with h | h <;> rw [h] at hallowed <;>
    simp [routeParsed, h, htier, hp2, hallowed]

/-- Witness for the amended C6 at the concrete parsed `!startvm`. -/
theorem C6_amended_admin_vm_enqueued_witness :
    routeParsed (τ := Int) (RateLimiter.init 3 1) 100 true
      { message_id := "m1", author_id := "adminA", author_name := "a",
        author_display := "AdminA", text := "!startvm" } Permission.admin
      { name := "startvm", args := [], raw := "!startvm",
        tier := CommandTier.admin, required_permission := Permission.admin } =
      RouteOutcome.enqueued
        { name := "startvm", args := [], raw := "!startvm",
          tier := CommandTier.admin,
          required_permission := Permission.admin } :=
  C6_amended_admin_vm_enqueued (RateLimiter.init 3 1) 100
    { message_id := "m1", author_id := "adminA", author_name := "a",
      author_display := "AdminA", text := "!startvm" } Permission.admin
    { name := "startvm", args := [], raw := "!startvm",
      tier := CommandTier.admin, required_permission := Permission.admin }
    (Or.inl rfl) rfl (by decide) (by decide)

/-! ### Inbound dedup (`src/api/youtube_chat.py`, message_stream)

`message_stream` keeps a `seen_ids` set; for each polled batch it yields
only messages whose id is not in the set, adding yielded ids, and after
the batch trims the set down to 5000 entries once it exceeds 10000
(`seen_ids = set(list(seen_ids)[-5000:])`; the spec describes the
retained entries as the most recent, which is how the trim is modelled —
CPython set iteration order is not insertion order, so the real eviction
choice is arbitrary, but some 5000-element subset survives either way).
Message ids are opaque strings compared only for equality; they are
modelled by an arbitrary type with decidable equality.  Only the id field
of each message matters to dedup, so a message is its id. -/

/-- One polled batch: yield unseen ids in order, adding each to `seen`. -/
def processBatch {α : Type} [DecidableEq α] (seen : List α) :
    List α → List α × List α
  | [] => ([], seen)
  | id :: rest =>
    if id ∈ seen then processBatch seen rest
    else
      let r := processBatch (seen ++ [id]) rest
      (id :: r.1, r.2)

/-- The after-batch trim of `seen_ids`. -/
def trimSeen {α : Type} (seen : List α) : List α :=
  if seen.length > 10000 then seen.drop (seen.length - 5000) else seen

/-- The sequence of messages yielded by `message_stream` across a list of
polled batches. -/
def messageStream {α : Type} [DecidableEq α] (seen : List α) :
    List (List α) → List α
  | [] => []
  | b :: rest =>
    let r := processBatch seen b
    r.1 ++ messageStream (trimSeen r.2) rest

theorem processBatch_fresh {α : Type} [DecidableEq α] (b : List α)
    (seen : List α) (hb : b.Nodup) (hdisj : ∀ x ∈ b, x ∉ seen) :
    processBatch seen b = (b, seen ++ b) := by
  induction b generalizing seen with
  | nil => simp [processBatch]
  | cons x rest ih =>
    have hx : x ∉ seen := hdisj x (List.mem_cons_self x rest)
    rw [List.nodup_cons] at hb
    have hr := ih (seen ++ [x]) hb.2 (by
      intro y hy
      simp only [List.mem_append, List.mem_singleton]
      push_neg
      exact ⟨hdisj y (List.mem_cons_of_mem x hy), fun hyx => hb.1 (hyx ▸ hy)⟩)
    simp [processBatch, hx, hr]

/-- The 10001 fresh ids delivered between the two deliveries of id 0. -/
def floodIds : List Nat := (List.range 10001).map (fun n => n + 1)

theorem floodIds_nodup : floodIds.Nodup :=
  (List.nodup_range 10001).map (add_left_injective 1)

theorem floodIds_pos (x : Nat) (hx : x ∈ floodIds) : 0 < x := by
  unfold floodIds at hx
  obtain ⟨n, _, rfl⟩ := List.mem_map.1 hx
  omega

theorem floodIds_length : floodIds.length = 10001 := by
  unfold floodIds
  rw [List.length_map, List.length_range]

/-- C8 counterexample: deliver id 0, then 10001 distinct other ids in one
batch (forcing the trim, which evicts id 0), then id 0 again: id 0 is
yielded twice, so a twice-delivered id is not always filtered to at most
one command. -/
theorem C8_counterexample :
    (messageStream [] [[0], floodIds, [0]]).count 0 = 2 := by
  have h1 : processBatch ([] : List Nat) [0] = ([0], [0]) := by decide
  have h2 : trimSeen [(0 : Nat)] = [0] := by decide
  have h3 : processBatch [(0 : Nat)] floodIds = (floodIds, [0] ++ floodIds) :=
    processBatch_fresh floodIds [0] floodIds_nodup (by
      intro x hx
      have := floodIds_pos x hx
      simp
      omega)
  have hlen : ([(0 : Nat)] ++ floodIds).length = 10002 := by
    rw [List.length_append, floodIds_length]
    rfl
  have h4 : trimSeen ([(0 : Nat)] ++ floodIds) = floodIds.drop 5001 := by
    unfold trimSeen
    rw [if_pos (by omega)]
    rw [hlen]
    show ([0] ++ floodIds).drop 5002 = floodIds.drop 5001
    have : (5002 : Nat) = [(0 : Nat)].length + 5001 := by simp
    rw [this, List.drop_append]
  have h0drop : (0 : Nat) ∉ floodIds.drop 5001 := by
    intro h
    have := floodIds_pos 0 (List.mem_of_mem_drop h)
    omega
  have h5 : processBatch (floodIds.drop 5001) [(0 : Nat)] =
      ([0], floodIds.drop 5001 ++ [0]) := by
    simp [processBatch, h0drop]
  show (messageStream [] ([0] :: floodIds :: [[0]])).count 0 = 2
  rw [messageStream, h1]
  rw [messageStream, h2, h3]
  rw [messageStream, h4, h5]
  rw [messageStream]
  simp only [List.append_nil, List.count_cons, List.count_append]
  have hcf : floodIds.count 0 = 0 := by
    rw [List.count_eq_zero]
    intro h
    have := floodIds_pos 0 h
    omega
  simp [hcf]

theorem processBatch_facts {α : Type} [DecidableEq α] (b : List α)
    (seen : List α) :
    (processBatch seen b).2 = seen ++ (processBatch seen b).1 ∧
    (processBatch seen b).1.Nodup ∧
    (∀ y ∈ (processBatch seen b).1, y ∉ seen) ∧
    (processBatch seen b).1.length ≤ b.length := by
  induction b generalizing seen with
  | nil => simp [processBatch]
  | cons x rest ih =>
    by_cases hx : x ∈ seen
    · simp only [processBatch, hx, if_true]
      obtain ⟨i1, i2, i3, i4⟩ := ih seen
      exact ⟨i1, i2, i3, by simp only [List.length_cons]; omega⟩
    · simp only [processBatch, hx, if_false]
      obtain ⟨i1, i2, i3, i4⟩ := ih (seen ++ [x])
      refine ⟨?_, ?_, ?_, ?_⟩
      · rw [i1]
        simp
      · rw [List.nodup_cons]
        refine ⟨fun hx2 => ?_, i2⟩
        have := i3 x hx2
        simp at this
      · intro y hy
        rcases List.mem_cons.1 hy with rfl | hy2
        · exact hx
        · have := i3 y hy2
          simp only [List.mem_append, List.mem_singleton] at this
          push_neg at this
          exact this.1
      · simp only [List.length_cons]
        omega

theorem messageStream_count {α : Type} [DecidableEq α]
    (batches : List (List α)) (seen : List α) (hnd : seen.Nodup)
    (h : seen.length + batches.flatten.length ≤ 10000) (id : α) :
    (messageStream seen batches).count id +
      (if id ∈ seen then 1 else 0) ≤ 1 := by
  induction batches generalizing seen with
  | nil =>
    simp only [messageStream, List.count_nil]
    split <;> omega
  | cons b rest ih =>
    obtain ⟨i1, i2, i3, i4⟩ := processBatch_facts b seen
    have hnd2 : (processBatch seen b).2.Nodup := by
      rw [i1, List.nodup_append]
      exact ⟨hnd, i2, fun a ha hb => (i3 a hb) ha⟩
    have hj : (b :: rest).flatten.length = b.length + rest.flatten.length := by
      simp
    have hlen2 : (processBatch seen b).2.length ≤ 10000 := by
      rw [i1, List.length_append]
      omega
    have htrim : trimSeen (processBatch seen b).2 = (processBatch seen b).2 := by
      unfold trimSeen
      rw [if_neg (by omega)]
    have hrec := ih (processBatch seen b).2 hnd2 (by
      rw [i1, List.length_append]
      omega)
    simp only [messageStream, List.count_append]
    rw [htrim]
    by_cases hseen : id ∈ seen
    · have hys : (processBatch seen b).1.count id = 0 :=
        List.count_eq_zero.2 (fun hy => (i3 id hy) hseen)
      have hseen2 : id ∈ (processBatch seen b).2 := by
        rw [i1]
        exact List.mem_append_left _ hseen
      rw [if_pos hseen2] at hrec
      rw [if_pos hseen]
      omega
    · rw [if_neg hseen]
      by_cases hys : id ∈ (processBatch seen b).1
      · have hys1 : (processBatch seen b).1.count id ≤ 1 :=
          List.nodup_iff_count_le_one.1 i2 id
        have hseen2 : id ∈ (processBatch seen b).2 := by
          rw [i1]
          exact List.mem_append_right _ hys
        rw [if_pos hseen2] at hrec
        omega
      · have hys0 : (processBatch seen b).1.count id = 0 :=
          List.count_eq_zero.2 hys
        have hseen2 : id ∉ (processBatch seen b).2 := by
          rw [i1]
          intro hmem
          rcases List.mem_append.1 hmem with hmem | hmem
          · exact hseen hmem
          · exact hys hmem
        rw [if_neg hseen2] at hrec
        omega

/-- C8 amended: dedup by id is exact as long as the retained-id set is
never trimmed; in particular, whenever at most 10000 messages are
delivered in total, every id (and so any twice-delivered id) yields at
most one parsed/enqueued command.  Once the set exceeds 10000 ids it is
cut back to 5000 entries, after which an evicted id is yielded again on
redelivery (see the counterexample). -/
theorem C8_dedup_amended {α : Type} [DecidableEq α] (batches : List (List α))
    (h : batches.flatten.length ≤ 10000) (id : α) :
    (messageStream [] batches).count id ≤ 1 := by
  have := messageStream_count batches [] List.nodup_nil (by simpa using h) id
  simpa using this

/-- Witness for the amended C8: the same id delivered in two successive
small batches is yielded once. -/
theorem C8_dedup_amended_witness :
    (messageStream [] [[(0 : Nat)], [0]]).count 0 ≤ 1 :=
  C8_dedup_amended [[(0 : Nat)], [0]] (by decide) 0

/-! ### CommandExecutor (`src/commands/executor.py`)

Each handler's calls into the actuator (`VMController`) are recorded as a
trace of `ActCall` values; the outcome of each actuator call, and the
semantics of the Python numeric-parsing library functions
(`int(float(s))`, `float(s)`, `int(s)`, `str.isdigit`), are supplied as
oracles, so every theorem below holds for every possible actuator
behaviour and every parse outcome.  Python exceptions are `Except.error`;
`int(float(s))` raising `ValueError` is `none` from the oracle.
User-visible message strings keep the source text minus the emoji
prefixes; the generic failure notice of `execute` is modelled exactly
(`"Error executing !" ++ name`).  Durations (floats) are rationals. -/

abbrev PyExc := String

inductive ActCall
  | startVm
  | toggleFullscreen
  | mouseMove (dx dy : Int)
  | mouseAbs (x y : Int)
  | mouseDrag (dx dy : Int) (button : String)
  | mouseClick (button : String)
  | mouseScroll (delta : Int)
  | typeText (t : String)
  | sendText (t : String)
  | keyPress (k : String) (duration : Rat)
  | keyCombo (c : String)
  | keyDown (k : String)
  | keyUp (k : String)
  | sleep (secs : Rat)
  | resetVm
  | restoreSnapshot (name : String)
  | screenshot
deriving DecidableEq, Repr

/-- The configuration fields read by the executor
(`src/utils/config.py` defaults: mouse_max_delta=300,
mouse_abs_x_max=1920, mouse_abs_y_max=1080, type_max_length=100,
max_wait_seconds=10, snapshot_name="SafeBase"). -/
structure Config where
  mouse_max_delta : Int
  mouse_abs_x_max : Int
  mouse_abs_y_max : Int
  type_max_length : Nat
  max_wait_seconds : Rat
  snapshot_name : String
deriving DecidableEq, Repr

/-- Oracle for the Python numeric-parsing library calls. -/
structure PyNum where
  intFloat : String → Option Int
  floatOf : String → Option Rat
  intOf : String → Option Int
  isdigit : String → Bool

/-- Oracle for the outcome of each `VMController` method. -/
structure VMOracle where
  start_vm : Except PyExc Bool
  toggle_fullscreen : Except PyExc Bool
  mouse_move : Int → Int → Except PyExc Bool
  mouse_abs : Int → Int → Except PyExc Bool
  mouse_drag : Int → Int → String → Except PyExc Bool
  mouse_click_v2 : String → Except PyExc Bool
  mouse_scroll : Int → Except PyExc Bool
  type_text : String → Except PyExc Bool
  send_text : String → Except PyExc Bool
  key_press : String → Rat → Except PyExc Bool
  key_combo : String → Except PyExc Bool
  key_down : String → Except PyExc Bool
  key_up : String → Except PyExc Bool
  reset_vm : Except PyExc Bool
  restore_snapshot : String → Except PyExc Bool
  screenshot : Except PyExc (Option String)

structure CommandResult where
  success : Bool
  message : String := ""
  public : Bool := true
deriving DecidableEq, Repr

/-- `CommandResult.ok`. -/
def CommandResult.okr (msg : String := "") (pub : Bool := true) : CommandResult :=
  { success := true, message := msg, public := pub }

/-- `CommandResult.fail`. -/
def CommandResult.fail (msg : String := "") : CommandResult :=
  { success := false, message := msg, public := true }

/-- One handler body outcome: trace of actuator calls made, and either a
returned `CommandResult` or a raised exception. -/
abbrev HandlerOut := List ActCall × Except PyExc CommandResult

/-- `await` one actuator call: record it, propagate its exception, or
continue with its return value. -/
def callVM {β : Type} (c : ActCall) (r : Except PyExc β)
    (k : β → HandlerOut) : HandlerOut :=
  match r with
  | Except.error e => ([c], Except.error e)
  | Except.ok b =>
    let r2 := k b
    (c :: r2.1, r2.2)

def DIRECTION_MAP : List (String × (Int × Int)) :=
  [("left", (-100, 0)), ("right", (100, 0)), ("up", (0, -100)),
   ("down", (0, 100))]

/-- `args[i]`: raises `IndexError` when out of range. -/
def pyIndex {β : Type} (l : List β) (i : Nat) : Except PyExc β :=
  match l.get? i with
  | none => Except.error "IndexError"
  | some x => Except.ok x

/-- `CommandExecutor._move`. -/
def executorMove (cfg : Config) (num : PyNum) (vm : VMOracle)
    (args : List String) : HandlerOut :=
  match args with
  | [] => ([], Except.ok (CommandResult.fail
      "Usage: !move dx dy | !move left/right/up/down"))
  | a0 :: rest =>
    let direction := pyLower a0
    match dget? DIRECTION_MAP direction with
    | some dxy =>
      let stepsE : Except PyExc Int :=
        match rest with
        | [] => Except.ok 1
        | a1 :: _ =>
          if num.isdigit (pyLstripDash a1) then
            match num.intOf a1 with
            | some n => Except.ok n
            | none => Except.error "ValueError"
          else Except.ok 1
      match stepsE with
      | Except.error e => ([], Except.error e)
      | Except.ok steps0 =>
        let steps := max 1 (min steps0 10)
        let m := cfg.mouse_max_delta
        let dx := max (-m) (min (dxy.1 * steps) m)
        let dy := max (-m) (min (dxy.2 * steps) m)
        callVM (ActCall.mouseMove dx dy) (vm.mouse_move dx dy) (fun _ =>
          ([], Except.ok (CommandResult.okr
            ("Moved (" ++ toString dx ++ "," ++ toString dy ++ ")") false)))
    | none =>
      match rest with
      | [] => ([], Except.ok (CommandResult.fail "Usage: !move dx dy"))
      | a1 :: _ =>
        match num.intFloat a0, num.intFloat a1 with
        | some dx0, some dy0 =>
          let m := cfg.mouse_max_delta
          let dx := max (-m) (min dx0 m)
          let dy := max (-m) (min dy0 m)
          callVM (ActCall.mouseMove dx dy) (vm.mouse_move dx dy) (fun _ =>
            ([], Except.ok (CommandResult.okr
              ("Moved (" ++ toString dx ++ "," ++ toString dy ++ ")") false)))
        | _, _ => ([], Except.ok (CommandResult.fail "Invalid coordinates"))

/-- `CommandExecutor._abs`. -/
def executorAbs (cfg : Config) (num : PyNum) (vm : VMOracle)
    (args : List String) : HandlerOut :=
  let parsed : Option (Int × Int) :=
    match args with
    | a0 :: a1 :: _ =>
      match num.intFloat a0, num.intFloat a1 with
      | some x, some y => some (x, y)
      | _, _ => none
    | _ => none
  match parsed with
  | none => ([], Except.ok (CommandResult.fail "Usage: !abs x y"))
  | some xy =>
    let x := max 0 (min xy.1 cfg.mouse_abs_x_max)
    let y := max 0 (min xy.2 cfg.mouse_abs_y_max)
    callVM (ActCall.mouseAbs x y) (vm.mouse_abs x y) (fun _ =>
      ([], Except.ok (CommandResult.okr
        ("Moved to (" ++ toString x ++ "," ++ toString y ++ ")") false)))

/-- `CommandExecutor._drag`. -/
def executorDrag (cfg : Config) (num : PyNum) (vm : VMOracle)
    (args : List String) : HandlerOut :=
  match args with
  | a0 :: a1 :: rest2 =>
    match num.intFloat a0, num.intFloat a1 with
    | some dx0, some dy0 =>
      let button0 := match rest2 with
        | b :: _ => pyLower b
        | [] => "left"
      let button := if button0 = "left" ∨ button0 = "right" ∨
          button0 = "middle" then button0 else "left"
      let m := cfg.mouse_max_delta
      let dx := max (-m) (min dx0 m)
      let dy := max (-m) (min dy0 m)
      callVM (ActCall.mouseDrag dx dy button) (vm.mouse_drag dx dy button)
        (fun _ => ([], Except.ok (CommandResult.okr
          ("Dragged (" ++ toString dx ++ "," ++ toString dy ++ ")") false)))
    | _, _ => ([], Except.ok (CommandResult.fail "Usage: !drag dx dy [button]"))
  | _ => ([], Except.ok (CommandResult.fail "Usage: !drag dx dy [button]"))

/-- `CommandExecutor._click`. -/
def executorClick (vm : VMOracle) (args : List String) : HandlerOut :=
  let button0 := match args with
    | b :: _ => pyLower b
    | [] => "left"
  let button := if button0 = "left" ∨ button0 = "right" ∨
      button0 = "middle" then button0 else "left"
  callVM (ActCall.mouseClick button) (vm.mouse_click_v2 button) (fun _ =>
    ([], Except.ok (CommandResult.okr (button ++ " click") false)))

/-- `CommandExecutor._rclick`. -/
def executorRclick (vm : VMOracle) : HandlerOut :=
  callVM (ActCall.mouseClick "right") (vm.mouse_click_v2 "right") (fun _ =>
    ([], Except.ok (CommandResult.okr "Right click" false)))

/-- `CommandExecutor._scroll`. -/
def executorScroll (num : PyNum) (vm : VMOracle) (args : List String) :
    HandlerOut :=
  match args with
  | [] => ([], Except.ok (CommandResult.fail "Usage: !scroll delta"))
  | a0 :: _ =>
    match num.intFloat a0 with
    | none => ([], Except.ok (CommandResult.fail "Usage: !scroll delta"))
    | some d0 =>
      let delta := max (-10) (min d0 10)
      callVM (ActCall.mouseScroll delta) (vm.mouse_scroll delta) (fun _ =>
        ([], Except.ok (CommandResult.okr ("Scrolled " ++ toString delta)
          false)))

/-- `CommandExecutor._type`. -/
def executorType (cfg : Config) (vm : VMOracle) (args : List String) :
    HandlerOut :=
  match args with
  | [] => ([], Except.ok (CommandResult.fail "Usage: !type text"))
  | a0 :: _ =>
    let text := pyTake a0 cfg.type_max_length
    callVM (ActCall.typeText text) (vm.type_text text) (fun _ =>
      ([], Except.ok (CommandResult.okr ("Typed: " ++ text))))

/-- `CommandExecutor._send`. -/
def executorSend (cfg : Config) (vm : VMOracle) (args : List String) :
    HandlerOut :=
  match args with
  | [] => ([], Except.ok (CommandResult.fail "Usage: !send text"))
  | a0 :: _ =>
    let text := pyTake a0 cfg.type_max_length
    callVM (ActCall.sendText text) (vm.send_text text) (fun _ =>
      ([], Except.ok (CommandResult.okr ("Sent: " ++ text))))

/-- `CommandExecutor._key` (`args[0]` unguarded: IndexError propagates to
the outer try of `execute`; a bad duration string falls back to 0.1). -/
def executorKey (num : PyNum) (vm : VMOracle) (args : List String) :
    HandlerOut :=
  match pyIndex args 0 with
  | Except.error e => ([], Except.error e)
  | Except.ok a0 =>
    let key := pyLower a0
    let duration : Rat :=
      match args.get? 1 with
      | none => 0.1
      | some a1 =>
        match num.floatOf a1 with
        | some f => max 0.05 (min f 2)
        | none => 0.1
    callVM (ActCall.keyPress key duration) (vm.key_press key duration)
      (fun ok =>
        if ok then ([], Except.ok (CommandResult.okr ("Key: " ++ key) false))
        else ([], Except.ok (CommandResult.fail ("Unknown key: " ++ key))))

/-- `CommandExecutor._combo`. -/
def executorCombo (vm : VMOracle) (args : List String) : HandlerOut :=
  match pyIndex args 0 with
  | Except.error e => ([], Except.error e)
  | Except.ok a0 =>
    let combo := pyLower a0
    let parts := pySplitOnChar combo '+'
    if parts.length > 4 then
      ([], Except.ok (CommandResult.fail "Too many keys in combo"))
    else
      callVM (ActCall.keyCombo combo) (vm.key_combo combo) (fun _ =>
        ([], Except.ok (CommandResult.okr ("Combo: " ++ combo))))

/-- `CommandExecutor._keydown`. -/
def executorKeydown (vm : VMOracle) (args : List String) : HandlerOut :=
  match pyIndex args 0 with
  | Except.error e => ([], Except.error e)
  | Except.ok a0 =>
    let key := pyLower a0
    callVM (ActCall.keyDown key) (vm.key_down key) (fun ok =>
      if ok then ([], Except.ok (CommandResult.okr ("KeyDown: " ++ key) false))
      else ([], Except.ok (CommandResult.fail ("Unknown key: " ++ key))))

/-- `CommandExecutor._keyup`. -/
def executorKeyup (vm : VMOracle) (args : List String) : HandlerOut :=
  match pyIndex args 0 with
  | Except.error e => ([], Except.error e)
  | Except.ok a0 =>
    let key := pyLower a0
    callVM (ActCall.keyUp key) (vm.key_up key) (fun ok =>
      if ok then ([], Except.ok (CommandResult.okr ("KeyUp: " ++ key) false))
      else ([], Except.ok (CommandResult.fail ("Unknown key: " ++ key))))

/-- `CommandExecutor._enter`. -/
def executorEnter (vm : VMOracle) : HandlerOut :=
  callVM (ActCall.keyPress "enter" 0.1) (vm.key_press "enter" 0.1) (fun _ =>
    ([], Except.ok (CommandResult.okr "Enter" false)))

/-- `CommandExecutor._wait`. -/
def executorWait (cfg : Config) (num : PyNum) (args : List String) :
    HandlerOut :=
  match args with
  | [] => ([], Except.ok (CommandResult.fail "Usage: !wait seconds"))
  | a0 :: _ =>
    match num.floatOf a0 with
    | none => ([], Except.ok (CommandResult.fail "Usage: !wait seconds"))
    | some s0 =>
      let secs := max 0 (min s0 cfg.max_wait_seconds)
      ([ActCall.sleep secs], Except.ok (CommandResult.okr "Waited" false))

/-- `CommandExecutor._startvm`. -/
def executorStartvm (vm : VMOracle) : HandlerOut :=
  callVM ActCall.startVm vm.start_vm (fun ok =>
    ([], Except.ok (if ok then CommandResult.okr "VM started!"
      else CommandResult.fail "VM failed to start")))

/-- `CommandExecutor._fullscreen`. -/
def executorFullscreen (vm : VMOracle) : HandlerOut :=
  callVM ActCall.toggleFullscreen vm.toggle_fullscreen (fun _ =>
    ([], Except.ok (CommandResult.okr "Fullscreen toggled" false)))

/-- `CommandExecutor._reset`. -/
def executorReset (vm : VMOracle) : HandlerOut :=
  callVM ActCall.resetVm vm.reset_vm (fun ok =>
    ([], Except.ok (if ok then CommandResult.okr "VM reset!"
      else CommandResult.fail "Reset failed")))

/-- `CommandExecutor._revert`. -/
def executorRevert (cfg : Config) (vm : VMOracle) : HandlerOut :=
  callVM (ActCall.restoreSnapshot cfg.snapshot_name)
    (vm.restore_snapshot cfg.snapshot_name) (fun ok =>
      if ok then
        let r2 := callVM ActCall.startVm vm.start_vm (fun _ =>
          ([], Except.ok (CommandResult.okr "Snapshot restored!")))
        (ActCall.sleep 3 :: r2.1, r2.2)
      else ([], Except.ok (CommandResult.fail "Revert failed")))

/-- `CommandExecutor._screenshot`. -/
def executorScreenshot (vm : VMOracle) : HandlerOut :=
  callVM ActCall.screenshot vm.screenshot (fun path? =>
    ([], Except.ok (match path? with
      | some p => CommandResult.okr ("Screenshot saved: " ++ p)
      | none => CommandResult.fail "Screenshot failed")))

/-- The body of `CommandExecutor.execute`: the full if/elif dispatch that
the source wraps in one try/except. -/
def executeBody (cfg : Config) (num : PyNum) (vm : VMOracle)
    (cmd : ParsedCommand) : HandlerOut :=
  if cmd.name = "startvm" then executorStartvm vm
  else if cmd.name = "fullscreen" then executorFullscreen vm
  else if cmd.name = "move" then executorMove cfg num vm cmd.args
  else if cmd.name = "abs" then executorAbs cfg num vm cmd.args
  else if cmd.name = "drag" then executorDrag cfg num vm cmd.args
  else if cmd.name = "click" then executorClick vm cmd.args
  else if cmd.name = "rclick" then executorRclick vm
  else if cmd.name = "scroll" then executorScroll num vm cmd.args
  else if cmd.name = "type" then executorType cfg vm cmd.args
  else if cmd.name = "send" then executorSend cfg vm cmd.args
  else if cmd.name = "key" then executorKey num vm cmd.args
  else if cmd.name = "combo" then executorCombo vm cmd.args
  else if cmd.name = "keydown" then executorKeydown vm cmd.args
  else if cmd.name = "keyup" then executorKeyup vm cmd.args
  else if cmd.name = "enter" then executorEnter vm
  else if cmd.name = "wait" then executorWait cfg num cmd.args
  else if cmd.name = "reset" then executorReset vm
  else if cmd.name = "revert" then executorRevert cfg vm
  else if cmd.name = "screenshot" then executorScreenshot vm
  else if cmd.name = "shutdown" then
    ([], Except.ok (CommandResult.fail "shutdown requires a vote"))
  else if cmd.name = "forceshutdown" then
    ([], Except.ok (CommandResult.fail "forceshutdown requires a vote"))
  else ([], Except.ok (CommandResult.fail ("Unknown command: " ++ cmd.name)))

/-- `CommandExecutor.execute`: the surrounding try/except converts any
exception into the generic visible failure notice. -/
def executorExecute (cfg : Config) (num : PyNum) (vm : VMOracle)
    (cmd : ParsedCommand) : List ActCall × CommandResult :=
  let r := executeBody cfg num vm cmd
  match r.2 with
  | Except.ok res => (r.1, res)
  | Except.error _ =>
    (r.1, CommandResult.fail ("Error executing !" ++ cmd.name))

/-- C9. `execute` never propagates an exception: whatever the actuator
and the argument parsing do, if the dispatched handler body raises, the
result is the failure CommandResult carrying the generic visible message
`Error executing !{name}`; otherwise the handler's own result is
returned.  (The consumer loop in `bot.py` therefore receives a
CommandResult for every command and continues.) -/
theorem C9_execute_catches (cfg : Config) (num : PyNum) (vm : VMOracle)
    (cmd : ParsedCommand) :
    (∀ e, (executeBody cfg num vm cmd).2 = Except.error e →
      (executorExecute cfg num vm cmd).2 =
        CommandResult.fail ("Error executing !" ++ cmd.name) ∧
      (executorExecute cfg num vm cmd).2.success = false ∧
      (executorExecute cfg num vm cmd).2.public = true) ∧
    (∀ res, (executeBody cfg num vm cmd).2 = Except.ok res →
      (executorExecute cfg num vm cmd).2 = res) := by
  constructor
  · intro e h
    simp only [executorExecute]
    rw [h]
    exact ⟨rfl, rfl, rfl⟩
  · intro res h
    simp only [executorExecute]
    rw [h]

/-- Concrete erroring actuator used by the C9 witness: the mouse-move
call raises. -/
def vmBoom : VMOracle :=
  { start_vm := Except.ok true, toggle_fullscreen := Except.ok true,
    mouse_move := fun _ _ => Except.error "boom",
    mouse_abs := fun _ _ => Except.ok true,
    mouse_drag := fun _ _ _ => Except.ok true,
    mouse_click_v2 := fun _ => Except.ok true,
    mouse_scroll := fun _ => Except.ok true,
    type_text := fun _ => Except.ok true,
    send_text := fun _ => Except.ok true,
    key_press := fun _ _ => Except.ok true,
    key_combo := fun _ => Except.ok true,
    key_down := fun _ => Except.ok true,
    key_up := fun _ => Except.ok true,
    reset_vm := Except.ok true,
    restore_snapshot := fun _ => Except.ok true,
    screenshot := Except.ok (some "shot.png") }

/-- Concrete parsing oracle for witnesses (enough inputs for the tests). -/
def numTest : PyNum :=
  { intFloat := fun s => if s = "5" then some 5 else if s = "7" then some 7
      else if s = "5000" then some 5000 else if s = "-42" then some (-42)
      else none,
    floatOf := fun _ => none,
    intOf := fun _ => none,
    isdigit := fun _ => false }

def cfgTest : Config :=
  { mouse_max_delta := 300, mouse_abs_x_max := 1920, mouse_abs_y_max := 1080,
    type_max_length := 100, max_wait_seconds := 10,
    snapshot_name := "SafeBase" }

/-- Witness for C9: a raising mouse-move is converted into the generic
failure result. -/
theorem C9_execute_catches_witness :
    (executorExecute cfgTest numTest vmBoom
      { name := "move", args := ["5", "7"], raw := "!move 5 7" }).2 =
        CommandResult.fail ("Error executing !" ++ "move") ∧
    (executorExecute cfgTest numTest vmBoom
      { name := "move", args := ["5", "7"], raw := "!move 5 7" }).2.success =
        false ∧
    (executorExecute cfgTest numTest vmBoom
      { name := "move", args := ["5", "7"], raw := "!move 5 7" }).2.public =
        true :=
  (C9_execute_catches cfgTest numTest vmBoom
    { name := "move", args := ["5", "7"], raw := "!move 5 7" }).1 "boom" rfl

/-- The clamping bounds of C10: relative moves and drags within
`[-m, m]` on both axes, scrolls within `[-10, 10]`; all other actuator
calls are unconstrained by the claim. -/
def safeCall (m : Int) : ActCall → Bool
  | ActCall.mouseMove dx dy =>
    decide (-m ≤ dx) && decide (dx ≤ m) && decide (-m ≤ dy) && decide (dy ≤ m)
  | ActCall.mouseDrag dx dy _ =>
    decide (-m ≤ dx) && decide (dx ≤ m) && decide (-m ≤ dy) && decide (dy ≤ m)
  | ActCall.mouseScroll d => decide (-10 ≤ d) && decide (d ≤ 10)
  | _ => true

theorem clamp_mem (m x : Int) (hm : 0 ≤ m) :
    -m ≤ max (-m) (min x m) ∧ max (-m) (min x m) ≤ m :=
  ⟨le_max_left _ _, max_le (by omega) (min_le_right x m)⟩

theorem safeCall_move_clamped (m x y : Int) (hm : 0 ≤ m) :
    safeCall m (ActCall.mouseMove (max (-m) (min x m))
      (max (-m) (min y m))) = true := by
  obtain ⟨h1, h2⟩ := clamp_mem m x hm
  obtain ⟨h3, h4⟩ := clamp_mem m y hm
  simp only [safeCall, Bool.and_eq_true, decide_eq_true_eq]
  exact ⟨⟨⟨h1, h2⟩, h3⟩, h4⟩

theorem safeCall_drag_clamped (m x y : Int) (b : String) (hm : 0 ≤ m) :
    safeCall m (ActCall.mouseDrag (max (-m) (min x m))
      (max (-m) (min y m)) b) = true := by
  obtain ⟨h1, h2⟩ := clamp_mem m x hm
  obtain ⟨h3, h4⟩ := clamp_mem m y hm
  simp only [safeCall, Bool.and_eq_true, decide_eq_true_eq]
  exact ⟨⟨⟨h1, h2⟩, h3⟩, h4⟩

theorem safeCall_scroll_clamped (m d : Int) :
    safeCall m (ActCall.mouseScroll (max (-10) (min d 10))) = true := by
  obtain ⟨h1, h2⟩ := clamp_mem 10 d (by omega)
  simp only [safeCall, Bool.and_eq_true, decide_eq_true_eq]
  exact ⟨h1, h2⟩

theorem mem_callVM_single {β : Type} (c0 : ActCall) (r : Except PyExc β)
    (k : β → HandlerOut) (hk : ∀ b, (k b).1 = []) (c : ActCall)
    (h : c ∈ (callVM c0 r k).1) : c = c0 := by
  cases r with
  | error e => simpa [callVM] using h
  | ok b =>
    simp [callVM, hk] at h
    exact h

theorem executorMove_safe (cfg : Config) (num : PyNum) (vm : VMOracle)
    (args : List String) (hm : 0 ≤ cfg.mouse_max_delta) :
    ∀ c ∈ (executorMove cfg num vm args).1,
      safeCall cfg.mouse_max_delta c = true := by
  intro c hc
  unfold executorMove at hc
  rcases args with _ | ⟨a0, rest⟩
  · simp at hc
  · simp only at hc
    rcases hdir : dget? DIRECTION_MAP (pyLower a0) with _ | dxy
    · rw [hdir] at hc
      simp only at hc
      rcases rest with _ | ⟨a1, rest2⟩
      · simp at hc
      · simp only at hc
        rcases hp0 : num.intFloat a0 with _ | dx0 <;>
          rcases hp1 : num.intFloat a1 with _ | dy0 <;>
            rw [hp0, hp1] at hc <;> simp only at hc
        · simp at hc
        · simp at hc
        · simp at hc
        · have := mem_callVM_single _ _ _ (fun _ => rfl) c hc
          rw [this]
          exact safeCall_move_clamped _ _ _ hm
    · rw [hdir] at hc
      simp only at hc
      rcases rest with _ | ⟨a1, rest2⟩
      · have := mem_callVM_single _ _ _ (fun _ => rfl) c hc
        rw [this]
        exact safeCall_move_clamped _ _ _ hm
      · simp only at hc
        by_cases hd : num.isdigit (pyLstripDash a1)
        · rw [if_pos hd] at hc
          rcases hi : num.intOf a1 with _ | n <;> rw [hi] at hc <;>
            simp only at hc
          · simp at hc
          · have := mem_callVM_single _ _ _ (fun _ => rfl) c hc
            rw [this]
            exact safeCall_move_clamped _ _ _ hm
        · rw [if_neg hd] at hc
          simp only at hc
          have := mem_callVM_single _ _ _ (fun _ => rfl) c hc
          rw [this]
          exact safeCall_move_clamped _ _ _ hm

theorem executorDrag_safe (cfg : Config) (num : PyNum) (vm : VMOracle)
    (args : List String) (hm : 0 ≤ cfg.mouse_max_delta) :
    ∀ c ∈ (executorDrag cfg num vm args).1,
      safeCall cfg.mouse_max_delta c = true := by
  intro c hc
  unfold executorDrag at hc
  rcases args with _ | ⟨a0, rest⟩
  · simp at hc
  · rcases rest with _ | ⟨a1, rest2⟩
    · simp at hc
    · simp only at hc
      rcases hp0 : num.intFloat a0 with _ | dx0 <;>
        rcases hp1 : num.intFloat a1 with _ | dy0 <;>
          rw [hp0, hp1] at hc <;> simp only at hc
      · simp at hc
      · simp at hc
      · simp at hc
      · have := mem_callVM_single _ _ _ (fun _ => rfl) c hc
        rw [this]
        exact safeCall_drag_clamped _ _ _ _ hm

theorem executorScroll_safe (num : PyNum) (vm : VMOracle)
    (args : List String) (m : Int) :
    ∀ c ∈ (executorScroll num vm args).1, safeCall m c = true := by
  intro c hc
  unfold executorScroll at hc
  rcases args with _ | ⟨a0, rest⟩
  · simp at hc
  · simp only at hc
    rcases hp0 : num.intFloat a0 with _ | d0 <;> rw [hp0] at hc <;>
      simp only at hc
    · simp at hc
    · have := mem_callVM_single _ _ _ (fun _ => rfl) c hc
      rw [this]
      exact safeCall_scroll_clamped _ _

theorem executorAbs_safe (cfg : Config) (num : PyNum) (vm : VMOracle)
    (args : List String) (m : Int) :
    ∀ c ∈ (executorAbs cfg num vm args).1, safeCall m c = true := by
  intro c hc
  unfold executorAbs at hc
  rcases args with _ | ⟨a0, rest⟩
  · simp at hc
  · rcases rest with _ | ⟨a1, rest2⟩
    · simp at hc
    · simp only at hc
      rcases hp0 : num.intFloat a0 with _ | x0 <;>
        rcases hp1 : num.intFloat a1 with _ | y0 <;>
          rw [hp0, hp1] at hc <;> simp only at hc
      · simp at hc
      · simp at hc
      · simp at hc
      · have := mem_callVM_single _ _ _ (fun _ => rfl) c hc
        rw [this]
        rfl

theorem executorStartvm_safe (vm : VMOracle) (m : Int) :
    ∀ c ∈ (executorStartvm vm).1, safeCall m c = true := by
  intro c hc
  have := mem_callVM_single _ _ _ (fun _ => rfl) c hc
  rw [this]
  rfl

theorem executorFullscreen_safe (vm : VMOracle) (m : Int) :
    ∀ c ∈ (executorFullscreen vm).1, safeCall m c = true := by
  intro c hc
  have := mem_callVM_single _ _ _ (fun _ => rfl) c hc
  rw [this]
  rfl

theorem executorClick_safe (vm : VMOracle) (args : List String) (m : Int) :
    ∀ c ∈ (executorClick vm args).1, safeCall m c = true := by
  intro c hc
  have := mem_callVM_single _ _ _ (fun _ => rfl) c hc
  rw [this]
  rfl

theorem executorRclick_safe (vm : VMOracle) (m : Int) :
    ∀ c ∈ (executorRclick vm).1, safeCall m c = true := by
  intro c hc
  have := mem_callVM_single _ _ _ (fun _ => rfl) c hc
  rw [this]
  rfl

theorem executorType_safe (cfg : Config) (vm : VMOracle) (args : List String)
    (m : Int) : ∀ c ∈ (executorType cfg vm args).1, safeCall m c = true := by
  intro c hc
  unfold executorType at hc
  rcases args with _ | ⟨a0, rest⟩
  · simp at hc
  · simp only at hc
    have := mem_callVM_single _ _ _ (fun _ => rfl) c hc
    rw [this]
    rfl

theorem executorSend_safe (cfg : Config) (vm : VMOracle) (args : List String)
    (m : Int) : ∀ c ∈ (executorSend cfg vm args).1, safeCall m c = true := by
  intro c hc
  unfold executorSend at hc
  rcases args with _ | ⟨a0, rest⟩
  · simp at hc
  · simp only at hc
    have := mem_callVM_single _ _ _ (fun _ => rfl) c hc
    rw [this]
    rfl

theorem executorKey_safe (num : PyNum) (vm : VMOracle) (args : List String)
    (m : Int) : ∀ c ∈ (executorKey num vm args).1, safeCall m c = true := by
  intro c hc
  unfold executorKey at hc
  rcases hi : pyIndex args 0 with e | a0 <;> rw [hi] at hc <;> simp only at hc
  · simp at hc
  · have := mem_callVM_single _ _ _ (fun b => by cases b <;> rfl) c hc
    rw [this]
    rfl

theorem executorCombo_safe (vm : VMOracle) (args : List String) (m : Int) :
    ∀ c ∈ (executorCombo vm args).1, safeCall m c = true := by
  intro c hc
  unfold executorCombo at hc
  rcases hi : pyIndex args 0 with e | a0 <;> rw [hi] at hc <;> simp only at hc
  · simp at hc
  · split_ifs at hc
    · simp at hc
    · have := mem_callVM_single _ _ _ (fun _ => rfl) c hc
      rw [this]
      rfl

theorem executorKeydown_safe (vm : VMOracle) (args : List String) (m : Int) :
    ∀ c ∈ (executorKeydown vm args).1, safeCall m c = true := by
  intro c hc
  unfold executorKeydown at hc
  rcases hi : pyIndex args 0 with e | a0 <;> rw [hi] at hc <;> simp only at hc
  · simp at hc
  · have := mem_callVM_single _ _ _ (fun b => by cases b <;> rfl) c hc
    rw [this]
    rfl

theorem executorKeyup_safe (vm : VMOracle) (args : List String) (m : Int) :
    ∀ c ∈ (executorKeyup vm args).1, safeCall m c = true := by
  intro c hc
  unfold executorKeyup at hc
  rcases hi : pyIndex args 0 with e | a0 <;> rw [hi] at hc <;> simp only at hc
  · simp at hc
  · have := mem_callVM_single _ _ _ (fun b => by cases b <;> rfl) c hc
    rw [this]
    rfl

theorem executorEnter_safe (vm : VMOracle) (m : Int) :
    ∀ c ∈ (executorEnter vm).1, safeCall m c = true := by
  intro c hc
  have := mem_callVM_single _ _ _ (fun _ => rfl) c hc
  rw [this]
  rfl

theorem executorWait_safe (cfg : Config) (num : PyNum) (args : List String)
    (m : Int) : ∀ c ∈ (executorWait cfg num args).1, safeCall m c = true := by
  intro c hc
  unfold executorWait at hc
  rcases args with _ | ⟨a0, rest⟩
  · simp at hc
  · simp only at hc
    rcases hp : num.floatOf a0 with _ | s0 <;> rw [hp] at hc <;> simp only at hc
    · simp at hc
    · simp at hc
      rw [hc]
      rfl

theorem executorReset_safe (vm : VMOracle) (m : Int) :
    ∀ c ∈ (executorReset vm).1, safeCall m c = true := by
  intro c hc
  have := mem_callVM_single _ _ _ (fun _ => rfl) c hc
  rw [this]
  rfl

theorem executorRevert_safe (cfg : Config) (vm : VMOracle) (m : Int) :
    ∀ c ∈ (executorRevert cfg vm).1, safeCall m c = true := by
  intro c hc
  unfold executorRevert at hc
  rcases hr : vm.restore_snapshot cfg.snapshot_name with e | b <;>
    rw [hr] at hc <;> simp only [callVM] at hc
  · simp at hc
    rw [hc]
    rfl
  · cases b
    · simp at hc
      rw [hc]
      rfl
    · simp only [if_true] at hc
      rcases hs : vm.start_vm with e2 | b2 <;> rw [hs] at hc <;>
        simp [callVM] at hc <;> rcases hc with rfl | rfl | rfl <;> rfl

theorem executorScreenshot_safe (vm : VMOracle) (m : Int) :
    ∀ c ∈ (executorScreenshot vm).1, safeCall m c = true := by
  intro c hc
  have := mem_callVM_single _ _ _ (fun _ => rfl) c hc
  rw [this]
  rfl

set_option maxHeartbeats 1000000 in
theorem executorExecute_fst (cfg : Config) (num : PyNum) (vm : VMOracle)
    (cmd : ParsedCommand) :
    (executorExecute cfg num vm cmd).1 = (executeBody cfg num vm cmd).1 := by
  simp only [executorExecute]
  rcases h : (executeBody cfg num vm cmd).2 with e | res <;> rfl

set_option maxHeartbeats 2000000 in
/-- C10. Whatever the user-supplied argument list, the parse outcomes and
the actuator behaviour: every relative mouse move or drag issued by the
executor has both deltas clamped into
[-mouse_max_delta, +mouse_max_delta], and every scroll has its delta
clamped into [-10, 10]. -/
theorem C10_actuator_bounds (cfg : Config) (num : PyNum) (vm : VMOracle)
    (cmd : ParsedCommand) (hm : 0 ≤ cfg.mouse_max_delta) :
    ∀ c ∈ (executorExecute cfg num vm cmd).1,
      safeCall cfg.mouse_max_delta c = true := by
  intro c hc
  rw [executorExecute_fst] at hc
  unfold executeBody at hc
  by_cases h1 : cmd.name = "startvm"
  · rw [if_pos h1] at hc
    exact executorStartvm_safe vm _ c hc
  rw [if_neg h1] at hc
  by_cases h2 : cmd.name = "fullscreen"
  · rw [if_pos h2] at hc
    exact executorFullscreen_safe vm _ c hc
  rw [if_neg h2] at hc
  by_cases h3 : cmd.name = "move"
  · rw [if_pos h3] at hc
    exact executorMove_safe cfg num vm cmd.args hm c hc
  rw [if_neg h3] at hc
  by_cases h4 : cmd.name = "abs"
  · rw [if_pos h4] at hc
    exact executorAbs_safe cfg num vm cmd.args _ c hc
  rw [if_neg h4] at hc
  by_cases h5 : cmd.name = "drag"
  · rw [if_pos h5] at hc
    exact executorDrag_safe cfg num vm cmd.args hm c hc
  rw [if_neg h5] at hc
  by_cases h6 : cmd.name = "click"
  · rw [if_pos h6] at hc
    exact executorClick_safe vm cmd.args _ c hc
  rw [if_neg h6] at hc
  by_cases h7 : cmd.name = "rclick"
  · rw [if_pos h7] at hc
    exact executorRclick_safe vm _ c hc
  rw [if_neg h7] at hc
  by_cases h8 : cmd.name = "scroll"
  · rw [if_pos h8] at hc
    exact executorScroll_safe num vm cmd.args _ c hc
  rw [if_neg h8] at hc
  by_cases h9 : cmd.name = "type"
  · rw [if_pos h9] at hc
    exact executorType_safe cfg vm cmd.args _ c hc
  rw [if_neg h9] at hc
  by_cases h10 : cmd.name = "send"
  · rw [if_pos h10] at hc
    exact executorSend_safe cfg vm cmd.args _ c hc
  rw [if_neg h10] at hc
  by_cases h11 : cmd.name = "key"
  · rw [if_pos h11] at hc
    exact executorKey_safe num vm cmd.args _ c hc
  rw [if_neg h11] at hc
  by_cases h12 : cmd.name = "combo"
  · rw [if_pos h12] at hc
    exact executorCombo_safe vm cmd.args _ c hc
  rw [if_neg h12] at hc
  by_cases h13 : cmd.name = "keydown"
  · rw [if_pos h13] at hc
    exact executorKeydown_safe vm cmd.args _ c hc
  rw [if_neg h13] at hc
  by_cases h14 : cmd.name = "keyup"
  · rw [if_pos h14] at hc
    exact executorKeyup_safe vm cmd.args _ c hc
  rw [if_neg h14] at hc
  by_cases h15 : cmd.name = "enter"
  · rw [if_pos h15] at hc
    exact executorEnter_safe vm _ c hc
  rw [if_neg h15] at hc
  by_cases h16 : cmd.name = "wait"
  · rw [if_pos h16] at hc
    exact executorWait_safe cfg num cmd.args _ c hc
  rw [if_neg h16] at hc
  by_cases h17 : cmd.name = "reset"
  · rw [if_pos h17] at hc
    exact executorReset_safe vm _ c hc
  rw [if_neg h17] at hc
  by_cases h18 : cmd.name = "revert"
  · rw [if_pos h18] at hc
    exact executorRevert_safe cfg vm _ c hc
  rw [if_neg h18] at hc
  by_cases h19 : cmd.name = "screenshot"
  · rw [if_pos h19] at hc
    exact executorScreenshot_safe vm _ c hc
  rw [if_neg h19] at hc
  by_cases h20 : cmd.name = "shutdown"
  · rw [if_pos h20] at hc
    simp at hc
  rw [if_neg h20] at hc
  by_cases h21 : cmd.name = "forceshutdown"
  · rw [if_pos h21] at hc
    simp at hc
  rw [if_neg h21] at hc
  simp at hc

/-- Witness for C10: an over-large move request is clamped before
reaching the actuator. -/
theorem C10_actuator_bounds_witness :
    ((executorExecute cfgTest numTest vmBoom
      { name := "move", args := ["5000", "-42"], raw := "!move 5000 -42" }).1).all
      (safeCall cfgTest.mouse_max_delta) = true := by
  rw [List.all_eq_true]
  intro c hc
  exact C10_actuator_bounds cfgTest numTest vmBoom
    { name := "move", args := ["5000", "-42"], raw := "!move 5000 -42" }
    (by decide) c hc

end YTVM
